import Mathlib

/-!
Shallow embedding of the `montecarlo_ir` interest-rate pricer
(yield curves, volatility surface, Hull-White one-factor model),
translated from `src/montecarlo_ir/`.

Conventions of the embedding:
* Python `datetime.date` values are represented by their proleptic Gregorian
  ordinal (`date.toordinal()`), an `Int`; comparison of dates coincides with
  comparison of ordinals.  `ordinalOfYMD` / `ymdOfOrdinal` convert between
  the ordinal and the (year, month, day) triple (the standard civil-calendar
  algorithms), used where the source does month/year arithmetic.
* Python floats holding times, dates-derived year fractions and day counts
  are modelled as exact rationals (every float is a rational; the source's
  arithmetic on them here is ring arithmetic and truncation).  Values on
  which the source applies transcendental functions (rates, discount
  factors, volatilities, shocks) are modelled as real numbers.
* A Python function that can `raise` is modelled in `Except Err`; each
  distinct `raise` site gets its own `Err` constructor.  A guard that the
  source performs inside a callee (`days_between`'s end-before-start check)
  is inlined at call sites where the surrounding code has not already
  established it.
-/

/-- One constructor per distinct `raise` site reached by the embedded code. -/
inductive Err
  | endBeforeStart
  | notIncreasing
  | targetBeforeValuation
  | endNotAfterStart
  | pillarLengthMismatch
  | noPillars
  | pillarBeforeValuation
  | pillarNotAfterValuation
  | dfOutOfRange
  | swapLengthMismatch
  | noSwaps
  | emptySchedule
  | bootstrapFailed
  | fuelOut
  | negativeTimes
  | shockLength
  | negativeExpiry
  | negativeTenor
  | maturityBeforeCurrent
  deriving DecidableEq, Repr

/-- `DayCountConvention` (date_helpers.py). -/
inductive DayCount
  | act360
  | act365
  | actAct
  | act36525
  | thirty360
  deriving DecidableEq, Repr

/-- `InterpolationMethod` of yield_curve.py: 'linear_zero' or 'log_linear_df'. -/
inductive Interp
  | linearZero
  | logLinearDf
  deriving DecidableEq, Repr

/-- `CompoundingMethod` of yield_curve.py: 'cont', 'simple' or 'annual'. -/
inductive Compounding
  | cont
  | simple
  | annual
  deriving DecidableEq, Repr

/-- `DiscretizationScheme` of hull_white.py: 'exact' or 'euler'. -/
inductive Scheme
  | exact
  | euler
  deriving DecidableEq, Repr

/-- Python `int(x)` on a rational: truncation toward zero
(T-division of numerator by denominator). -/
def intTrunc (q : ℚ) : ℤ := Int.tdiv q.num (q.den : ℤ)

/-- Leap-year test of `_days_in_month` (date_helpers.py line 293),
Python `%` is floor-mod, hence `Int.fmod`. -/
def isLeapYear (y : ℤ) : Bool :=
  Int.fmod y 4 == 0 && (Int.fmod y 100 != 0 || Int.fmod y 400 == 0)

/-- `_days_in_month(year, month)` (date_helpers.py). -/
def daysInMonth (y m : ℤ) : ℤ :=
  if m = 2 then (if isLeapYear y then 29 else 28)
  else if m = 4 ∨ m = 6 ∨ m = 9 ∨ m = 11 then 30
  else 31

/-- Proleptic Gregorian ordinal of a (year, month, day) triple, matching
Python's `date(y, m, d).toordinal()` (days-from-civil algorithm shifted to
Python's epoch `date(1, 1, 1).toordinal() = 1`). -/
def ordinalOfYMD (y m d : ℤ) : ℤ :=
  let y2 := if m ≤ 2 then y - 1 else y
  let era := Int.fdiv y2 400
  let yoe := y2 - era * 400
  let mp := Int.fmod (m + 9) 12
  let doy := Int.fdiv (153 * mp + 2) 5 + d - 1
  let doe := yoe * 365 + Int.fdiv yoe 4 - Int.fdiv yoe 100 + doy
  era * 146097 + doe - 305

/-- Inverse of `ordinalOfYMD`: the (year, month, day) triple of a Python
date ordinal (civil-from-days algorithm). -/
def ymdOfOrdinal (o : ℤ) : ℤ × ℤ × ℤ :=
  let z := o + 305
  let era := Int.fdiv z 146097
  let doe := z - era * 146097
  let yoe := Int.fdiv (doe - Int.fdiv doe 1460 + Int.fdiv doe 36524 - Int.fdiv doe 146096) 365
  let y2 := yoe + era * 400
  let doy := doe - (365 * yoe + Int.fdiv yoe 4 - Int.fdiv yoe 100)
  let mp := Int.fdiv (5 * doy + 2) 153
  let d := doy - Int.fdiv (153 * mp + 2) 5 + 1
  let m := mp + (if mp < 10 then 3 else -9)
  (if m ≤ 2 then y2 + 1 else y2, m, d)

/-- `add_months(d, months)` (date_helpers.py lines 235-256), on ordinals.
Python `//` and `%` are floor operations. -/
def addMonths (o : ℤ) (months : ℤ) : ℤ :=
  let ymd := ymdOfOrdinal o
  let month0 := ymd.2.1 - 1 + months
  let y2 := ymd.1 + Int.fdiv month0 12
  let m2 := Int.fmod month0 12 + 1
  let d2 := min ymd.2.2 (daysInMonth y2 m2)
  ordinalOfYMD y2 m2 d2

/-- `add_years(d, years)` (date_helpers.py lines 259-278), on ordinals; the
`except ValueError` arm fires exactly for Feb 29 mapped to a non-leap year. -/
def addYears (o : ℤ) (years : ℤ) : ℤ :=
  let ymd := ymdOfOrdinal o
  if ymd.2.1 = 2 ∧ ymd.2.2 = 29 ∧ ¬ isLeapYear (ymd.1 + years) then
    ordinalOfYMD (ymd.1 + years) 2 28
  else
    ordinalOfYMD (ymd.1 + years) ymd.2.1 ymd.2.2

/-- Number of days of a calendar year, as used by the ACT/ACT branch of
`days_between`. -/
def daysInYearQ (y : ℤ) : ℚ := ((ordinalOfYMD (y + 1) 1 1 - ordinalOfYMD y 1 1 : ℤ) : ℚ)

/-- The ACT/ACT branch of `days_between` (date_helpers.py lines 88-123).
The source's while-loop adds `1.0` for every full calendar year strictly
between the two dates' years, i.e. `(y2 - y1 - 1)` times when `y2 > y1`. -/
def yfActAct (s e : ℤ) : ℚ :=
  let y1 := (ymdOfOrdinal s).1
  let y2 := (ymdOfOrdinal e).1
  if y1 = y2 then ((e - s : ℤ) : ℚ) / daysInYearQ y1
  else
    ((ordinalOfYMD (y1 + 1) 1 1 - s : ℤ) : ℚ) / daysInYearQ y1
      + (((y2 - y1 - 1).toNat : ℤ) : ℚ)
      + ((e - ordinalOfYMD y2 1 1 : ℤ) : ℚ) / daysInYearQ y2

/-- The 30/360 branch of `days_between` (date_helpers.py lines 125-137). -/
def yfThirty360 (s e : ℤ) : ℚ :=
  let a := ymdOfOrdinal s
  let b := ymdOfOrdinal e
  let d1 := if a.2.2 = 31 then 30 else a.2.2
  let d2 := if b.2.2 = 31 ∧ d1 = 30 then 30 else b.2.2
  ((360 * (b.1 - a.1) + 30 * (b.2.1 - a.2.1) + (d2 - d1) : ℤ) : ℚ) / 360

/-- `days_between(start, end, convention)` without its end-before-start
guard (the guard is inlined in `daysBetweenE` and at call sites where the
source has already established `start ≤ end`). -/
def yfQ (s e : ℤ) (c : DayCount) : ℚ :=
  match c with
  | .act360 => ((e - s : ℤ) : ℚ) / 360
  | .act365 => ((e - s : ℤ) : ℚ) / 365
  | .act36525 => ((e - s : ℤ) : ℚ) / (1461 / 4)
  | .actAct => yfActAct s e
  | .thirty360 => yfThirty360 s e

/-- `days_between` / `year_fraction` with the source's end-before-start
`raise`. -/
def daysBetweenE (s e : ℤ) (c : DayCount) : Except Err ℚ :=
  if e < s then .error .endBeforeStart else .ok (yfQ s e c)

/-- `_linear_interpolate(x0, y0, x1, y1, x)` (yield_curve.py lines 28-33),
with rational abscissae and real ordinates. -/
noncomputable def linearInterp (x0 : ℚ) (y0 : ℝ) (x1 : ℚ) (y1 : ℝ) (x : ℚ) : ℝ :=
  if x1 = x0 then y0
  else
    let w : ℝ := ((x : ℝ) - (x0 : ℝ)) / ((x1 : ℝ) - (x0 : ℝ))
    (1 - w) * y0 + w * y1

/-- Python `bisect.bisect_right(xs, t)` on a sorted list: the number of
entries `≤ t` (the source only calls it on the curve's validated strictly
increasing pillar times, where binary search computes exactly this). -/
def bisectRight (xs : List ℚ) (t : ℚ) : ℕ := (xs.takeWhile (fun x => x ≤ t)).length

/-- `_validate_strictly_increasing` (yield_curve.py lines 21-25) as a
Boolean on any linearly ordered type with decidable order. -/
def chainLt {α : Type} [LT α] [DecidableRel (α := α) (· < ·)] : List α → Bool
  | [] => true
  | [_] => true
  | a :: b :: rest => decide (a < b) && chainLt (b :: rest)

/-- Stable insertion of a key-value pair into a list sorted by key,
keeping an equal key's earlier occupants first (Python's stable `sorted`). -/
def insertPair {β : Type} (p : ℤ × β) : List (ℤ × β) → List (ℤ × β)
  | [] => [p]
  | q :: qs => if p.1 < q.1 then p :: q :: qs else q :: insertPair p qs

/-- Python `sorted(pairs, key=lambda x: x[0])` via stable insertion sort. -/
def sortPairs {β : Type} (l : List (ℤ × β)) : List (ℤ × β) := l.foldr insertPair []

/-- `YieldCurve` (yield_curve.py lines 36-56): valuation date, pillar dates
(ordinals) with zero rates, and the three mode selectors.  The canonical
(sorted, validated) form is produced by `mkYieldCurve` below, which embeds
`__post_init__`. -/
structure YieldCurve where
  valuationDate : ℤ
  pillarDates : List ℤ
  pillarZeroRates : List ℝ
  dayCount : DayCount
  interp : Interp
  compounding : Compounding

/-- The `_pillar_times` field frozen by `__post_init__`: year fractions of
the (sorted) pillar dates from the valuation date. -/
def YieldCurve.pillarTimes (c : YieldCurve) : List ℚ :=
  c.pillarDates.map (fun d => yfQ c.valuationDate d c.dayCount)

/-- `YieldCurve.__post_init__` (yield_curve.py lines 58-80): length and
emptiness checks, pillar-not-before-valuation check, stable sort by date,
strict monotonicity of date ordinals and of the derived times. -/
def mkYieldCurve (val : ℤ) (dates : List ℤ) (rates : List ℝ)
    (dc : DayCount) (ip : Interp) (cp : Compounding) : Except Err YieldCurve :=
  if dates.length ≠ rates.length then .error .pillarLengthMismatch
  else if dates.length = 0 then .error .noPillars
  else if dates.any (fun d => d < val) then .error .pillarBeforeValuation
  else
    let sp := sortPairs (dates.zip rates)
    let ds := sp.map Prod.fst
    if ¬ chainLt ds then .error .notIncreasing
    else if ¬ chainLt (ds.map (fun d => yfQ val d dc)) then .error .notIncreasing
    else .ok ⟨val, ds, sp.map Prod.snd, dc, ip, cp⟩

/-- `_df_from_rate(r, t)` (yield_curve.py lines 117-124). -/
noncomputable def dfFromRate (cp : Compounding) (r : ℝ) (t : ℚ) : ℝ :=
  match cp with
  | .cont => Real.exp (-r * (t : ℝ))
  | .annual => 1 / ((1 + r) ^ (t : ℝ))
  | .simple => 1 / (1 + r * (t : ℝ))

/-- `_rate_from_df(df, t)` (yield_curve.py lines 126-135); the `t == 0`
branch returns the first pillar rate, passed in as `z0`. -/
noncomputable def rateFromDf (cp : Compounding) (z0 : ℝ) (df : ℝ) (t : ℚ) : ℝ :=
  if t = 0 then z0
  else
    match cp with
    | .cont => -Real.log df / (t : ℝ)
    | .annual => df ^ (-(1 : ℝ) / (t : ℝ)) - 1
    | .simple => (1 / df - 1) / (t : ℝ)

/-- `_zero_rate_at_time(t)` (yield_curve.py lines 137-164): flat clamp
outside the pillar range, otherwise interpolation between the bracketing
pillars located by `bisect_right`. -/
noncomputable def YieldCurve.zeroRateAtTime (c : YieldCurve) (t : ℚ) : ℝ :=
  let times := c.pillarTimes
  let zeros := c.pillarZeroRates
  if t ≤ times.headD 0 then zeros.headD 0
  else if t ≥ times.getLastD 0 then zeros.getLastD 0
  else
    let idx := bisectRight times t
    let t0 := times.getD (idx - 1) 0
    let t1 := times.getD idx 0
    let z0 := zeros.getD (idx - 1) 0
    let z1 := zeros.getD idx 0
    match c.interp with
    | .linearZero => linearInterp t0 z0 t1 z1 t
    | .logLinearDf =>
      let df0 := dfFromRate c.compounding z0 t0
      let df1 := dfFromRate c.compounding z1 t1
      let logDfT := linearInterp t0 (Real.log df0) t1 (Real.log df1) t
      rateFromDf c.compounding (zeros.headD 0) (Real.exp logDfT) t

/-- `discount_factor(target_date)` (yield_curve.py lines 83-91). -/
noncomputable def YieldCurve.discountFactorE (c : YieldCurve) (d : ℤ) : Except Err ℝ :=
  if d < c.valuationDate then .error .targetBeforeValuation
  else
    let t := yfQ c.valuationDate d c.dayCount
    if t = 0 then .ok 1
    else .ok (dfFromRate c.compounding (c.zeroRateAtTime t) t)

/-- `zero_rate(target_date)` (yield_curve.py lines 93-101). -/
noncomputable def YieldCurve.zeroRateE (c : YieldCurve) (d : ℤ) : Except Err ℝ :=
  if d < c.valuationDate then .error .targetBeforeValuation
  else
    let t := yfQ c.valuationDate d c.dayCount
    if t = 0 then .ok (c.pillarZeroRates.headD 0)
    else .ok (c.zeroRateAtTime t)

/-- `forward_rate(start_date, end_date)` (yield_curve.py lines 103-111). -/
noncomputable def YieldCurve.forwardRateE (c : YieldCurve) (d1 d2 : ℤ) : Except Err ℝ :=
  if d2 ≤ d1 then .error .endNotAfterStart
  else do
    let dfStart ← c.discountFactorE d1
    let dfEnd ← c.discountFactorE d2
    let tau := yfQ d1 d2 c.dayCount
    .ok ((dfStart / dfEnd - 1) / (tau : ℝ))

/-- The zero rate the discount-factor builder derives from one discount
factor (the inline compounding inversion of
`build_yield_curve_from_discount_factors`, yield_curve.py lines 188-195). -/
noncomputable def zeroOfDf (cp : Compounding) (df : ℝ) (t : ℚ) : ℝ :=
  match cp with
  | .cont => -Real.log df / (t : ℝ)
  | .annual => df ^ (-(1 : ℝ) / (t : ℝ)) - 1
  | .simple => (1 / df - 1) / (t : ℝ)

/-- The per-pillar loop of `build_yield_curve_from_discount_factors`
(yield_curve.py lines 180-196): the `year_fraction` call raises when the
pillar precedes the valuation date, then the `t <= 0` and
`df <= 0 or df >= 1 + 1e-12` guards fire in source order. -/
noncomputable def zerosOfDfsE (val : ℤ) (dc : DayCount) (cp : Compounding) :
    List ℤ → List ℝ → Except Err (List ℝ)
  | [], _ => .ok []
  | _ :: _, [] => .ok []
  | d :: ds, df :: dfs =>
    if d < val then .error .endBeforeStart
    else
      let t := yfQ val d dc
      if t ≤ 0 then .error .pillarNotAfterValuation
      else if df ≤ 0 ∨ df ≥ 1 + 1 / 1000000000000 then .error .dfOutOfRange
      else do
        let zs ← zerosOfDfsE val dc cp ds dfs
        .ok (zeroOfDf cp df t :: zs)

/-- `build_yield_curve_from_discount_factors` (yield_curve.py
lines 168-204). -/
noncomputable def buildYieldCurveFromDiscountFactors (val : ℤ) (dates : List ℤ)
    (dfs : List ℝ) (dc : DayCount) (ip : Interp) (cp : Compounding) :
    Except Err YieldCurve :=
  if dates.length ≠ dfs.length then .error .pillarLengthMismatch
  else do
    let zeros ← zerosOfDfsE val dc cp dates dfs
    mkYieldCurve val dates zeros dc ip cp

/-- vol_surface.py `InterpolationMethod`: 'linear' or 'flat'. -/
inductive VInterp
  | linear
  | flat
  deriving DecidableEq, Repr

/-- vol_surface.py `ExtrapolationMethod`: 'flat' or 'linear'. -/
inductive VExtrap
  | flat
  | linear
  deriving DecidableEq, Repr

/-- `VolatilitySurface` (vol_surface.py lines 35-62). -/
structure VolSurface where
  valuationDate : ℤ
  expiryTimes : List ℚ
  tenorTimes : List ℚ
  volMatrix : List (List ℝ)
  interp : VInterp
  extrap : VExtrap
  dayCount : DayCount

/-- `_find_index(times, t)` (vol_surface.py lines 180-186); `-1` is the
below-range sentinel, so the result lives in `ℤ`. -/
def findIdx (times : List ℚ) (t : ℚ) : ℤ :=
  if t ≤ times.headD 0 then -1
  else if t ≥ times.getLastD 0 then (times.length : ℤ) - 1
  else (bisectRight times t : ℤ) - 1

/-- `_get_bounds(times, idx)` (vol_surface.py lines 188-209). -/
def VolSurface.getBounds (S : VolSurface) (times : List ℚ) (idx : ℤ) : ℚ × ℚ :=
  if idx < 0 then
    if S.extrap = .flat then (times.headD 0, times.headD 0)
    else if times.length > 1 then (times.headD 0, times.getD 1 0)
    else (times.headD 0, times.headD 0)
  else if idx ≥ (times.length : ℤ) - 1 then
    if S.extrap = .flat then (times.getLastD 0, times.getLastD 0)
    else if times.length > 1 then (times.getD (times.length - 2) 0, times.getLastD 0)
    else (times.getLastD 0, times.getLastD 0)
  else (times.getD idx.toNat 0, times.getD (idx.toNat + 1) 0)

/-- `_interpolate_1d` (vol_surface.py lines 211-217). -/
noncomputable def VolSurface.interp1d (S : VolSurface)
    (x0 : ℚ) (y0 : ℝ) (x1 : ℚ) (y1 : ℝ) (x : ℚ) : ℝ :=
  if S.interp = .flat then y0 else linearInterp x0 y0 x1 y1 x

/-- `volatility_at_times(expiry_time, tenor_time)` (vol_surface.py
lines 113-178).  Python's `matrix[-1]` / `matrix[-2]` index from the end. -/
noncomputable def VolSurface.volatilityAtTimesE (S : VolSurface) (e t : ℚ) :
    Except Err ℝ :=
  if e < 0 then .error .negativeExpiry
  else if t < 0 then .error .negativeTenor
  else
    let expIdx := findIdx S.expiryTimes e
    let tenIdx := findIdx S.tenorTimes t
    let eb := S.getBounds S.expiryTimes expIdx
    let tb := S.getBounds S.tenorTimes tenIdx
    let rows : List ℝ × List ℝ :=
      if expIdx < 0 then
        (S.volMatrix.getD 0 [],
         if S.expiryTimes.length = 1 then S.volMatrix.getD 0 [] else S.volMatrix.getD 1 [])
      else if expIdx ≥ (S.expiryTimes.length : ℤ) - 1 then
        if S.expiryTimes.length > 1 ∧ S.extrap = .linear then
          (S.volMatrix.getD (S.volMatrix.length - 2) [],
           S.volMatrix.getD (S.volMatrix.length - 1) [])
        else
          (S.volMatrix.getD (S.volMatrix.length - 1) [],
           S.volMatrix.getD (S.volMatrix.length - 1) [])
      else (S.volMatrix.getD expIdx.toNat [], S.volMatrix.getD (expIdx.toNat + 1) [])
    let vols : ℝ × ℝ :=
      if tenIdx < 0 then (rows.1.getD 0 0, rows.2.getD 0 0)
      else if tenIdx ≥ (S.tenorTimes.length : ℤ) - 1 then
        (rows.1.getD (rows.1.length - 1) 0, rows.2.getD (rows.2.length - 1) 0)
      else
        (S.interp1d tb.1 (rows.1.getD tenIdx.toNat 0) tb.2 (rows.1.getD (tenIdx.toNat + 1) 0) t,
         S.interp1d tb.1 (rows.2.getD tenIdx.toNat 0) tb.2 (rows.2.getD (tenIdx.toNat + 1) 0) t)
    .ok (S.interp1d eb.1 vols.1 eb.2 vols.2 e)

/-- `HullWhite1F` (hull_white.py lines 22-47). -/
structure HullWhite1F where
  yieldCurve : YieldCurve
  meanReversion : ℝ
  volatility : ℝ
  scheme : Scheme
  dayCount : DayCount

/-- `_time_to_date(t)` (hull_white.py lines 265-280): valuation date plus
`int(t * 365)` days (360 for ACT/360; any other convention defaults
to 365). -/
def HullWhite1F.timeToDate (m : HullWhite1F) (t : ℚ) : ℤ :=
  m.yieldCurve.valuationDate +
    (match m.dayCount with
     | .act360 => intTrunc (t * 360)
     | _ => intTrunc (t * 365))

/-- `_initial_short_rate(t)` (hull_white.py lines 138-141). -/
noncomputable def HullWhite1F.initialShortRateE (m : HullWhite1F) (t : ℚ) :
    Except Err ℝ :=
  m.yieldCurve.zeroRateE (m.timeToDate t)

/-- `_theta(t)` (hull_white.py lines 209-237): finite-difference slope of
the curve's simple forward rate with the adaptive epsilon and the
date-collision widening fallback, plus mean-reversion and convexity
terms. -/
noncomputable def HullWhite1F.thetaE (m : HullWhite1F) (t : ℚ) : Except Err ℝ := do
  let tDate := m.timeToDate t
  let eps : ℚ := max (1 / 10000) (t * (1 / 1000000))
  let t1Raw := m.timeToDate (t + eps)
  let t1Date := if t1Raw ≤ tDate then m.timeToDate (t + max (1 / 100) (t * (1 / 100))) else t1Raw
  let fT ← m.yieldCurve.forwardRateE tDate t1Date
  let t2Raw := m.timeToDate (t + 2 * eps)
  let t2Date := if t2Raw ≤ t1Date then m.timeToDate (t + max (2 / 100) (t * (2 / 100))) else t2Raw
  let fTPlus ← m.yieldCurve.forwardRateE t1Date t2Date
  let dfDt := (fTPlus - fT) / (eps : ℝ)
  .ok (dfDt + m.meanReversion * fT +
    (m.volatility ^ 2 / (2 * m.meanReversion)) *
      (1 - Real.exp (-2 * m.meanReversion * (t : ℝ))))

/-- `_theta_integral(s, t)` (hull_white.py lines 239-253): composite
trapezoidal rule with `n_points = 10` sub-intervals, accumulated exactly as
the source's loop does (endpoint weight 1, interior weight 2, final factor
`dt / 2`). -/
noncomputable def HullWhite1F.thetaIntegralE (m : HullWhite1F) (s t : ℚ) :
    Except Err ℝ := do
  let dt := (t - s) / 10
  let integral ← (List.range 11).foldlM
    (fun (acc : ℝ) (i : ℕ) => do
      let v ← m.thetaE (s + (i : ℚ) * dt)
      pure (acc + (if i = 0 ∨ i = 10 then (1 : ℝ) else 2) * v))
    (0 : ℝ)
  .ok (integral * (dt : ℝ) / 2)

/-- The loop of `_simulate_exact` (hull_white.py lines 159-177); one shock
is consumed per step (the source indexes `random_shocks[i - 1]` after
checking the length, so the shocks-exhausted arm is unreachable there). -/
noncomputable def HullWhite1F.exactSteps (m : HullWhite1F) :
    ℚ → ℝ → List ℚ → List ℝ → Except Err (List ℝ)
  | _, _, [], _ => .ok []
  | tPrev, rPrev, t :: rest, shocks =>
    if t - tPrev ≤ 0 then .error .notIncreasing
    else
      match shocks with
      | [] => .error .shockLength
      | w :: ws => do
        let dt := t - tPrev
        let drift ← m.thetaIntegralE tPrev t
        let variance := (m.volatility ^ 2 / (2 * m.meanReversion)) *
          (1 - Real.exp (-2 * m.meanReversion * (dt : ℝ)))
        let r := rPrev * Real.exp (-m.meanReversion * (dt : ℝ)) + drift +
          Real.sqrt variance * w
        let rs ← m.exactSteps t r rest ws
        .ok (r :: rs)

/-- The loop of `_simulate_euler` (hull_white.py lines 195-207). -/
noncomputable def HullWhite1F.eulerSteps (m : HullWhite1F) :
    ℚ → ℝ → List ℚ → List ℝ → Except Err (List ℝ)
  | _, _, [], _ => .ok []
  | tPrev, rPrev, t :: rest, shocks =>
    if t - tPrev ≤ 0 then .error .notIncreasing
    else
      match shocks with
      | [] => .error .shockLength
      | w :: ws => do
        let dt := t - tPrev
        let thetaT ← m.thetaE tPrev
        let r := rPrev + (thetaT - m.meanReversion * rPrev) * (dt : ℝ) +
          m.volatility * Real.sqrt (dt : ℝ) * w
        let rs ← m.eulerSteps t r rest ws
        .ok (r :: rs)

/-- `_simulate_exact` (hull_white.py lines 143-177): draws `n - 1` shocks
from the process-level random source `gen` when none are supplied, and
checks the supplied length otherwise. -/
noncomputable def HullWhite1F.simulateExactE (m : HullWhite1F) (times : List ℚ)
    (r0 : ℝ) (shocks : Option (List ℝ)) (gen : ℕ → ℝ) : Except Err (List ℝ) :=
  match shocks with
  | some s =>
    if s.length ≠ times.length - 1 then .error .shockLength
    else do
      let rs ← m.exactSteps (times.headD 0) r0 times.tail s
      .ok (r0 :: rs)
  | none => do
    let rs ← m.exactSteps (times.headD 0) r0 times.tail
      ((List.range (times.length - 1)).map gen)
    .ok (r0 :: rs)

/-- `_simulate_euler` (hull_white.py lines 179-207). -/
noncomputable def HullWhite1F.simulateEulerE (m : HullWhite1F) (times : List ℚ)
    (r0 : ℝ) (shocks : Option (List ℝ)) (gen : ℕ → ℝ) : Except Err (List ℝ) :=
  match shocks with
  | some s =>
    if s.length ≠ times.length - 1 then .error .shockLength
    else do
      let rs ← m.eulerSteps (times.headD 0) r0 times.tail s
      .ok (r0 :: rs)
  | none => do
    let rs ← m.eulerSteps (times.headD 0) r0 times.tail
      ((List.range (times.length - 1)).map gen)
    .ok (r0 :: rs)

/-- `simulate_short_rate_path(times, random_shocks)` (hull_white.py
lines 56-83).  `gen` stands for the process-level `np.random` stream; it is
consulted only when `shocks` is `none`. -/
noncomputable def HullWhite1F.simulateShortRatePathE (m : HullWhite1F)
    (times : List ℚ) (shocks : Option (List ℝ)) (gen : ℕ → ℝ) :
    Except Err (List ℝ) :=
  match times with
  | [] => .ok []
  | t0 :: _ =>
    if t0 < 0 then .error .negativeTimes
    else do
      let r0 ← m.initialShortRateE t0
      match m.scheme with
      | .exact => m.simulateExactE times r0 shocks gen
      | .euler => m.simulateEulerE times r0 shocks gen

/-- `_forward_rate_integral(t, T)` (hull_white.py lines 255-263). -/
noncomputable def HullWhite1F.forwardRateIntegralE (m : HullWhite1F) (t T : ℚ) :
    Except Err ℝ := do
  let fwd ← m.yieldCurve.forwardRateE (m.timeToDate t) (m.timeToDate T)
  .ok (fwd * ((T : ℝ) - (t : ℝ)))

/-- `bond_price(t, T, r_t)` (hull_white.py lines 85-121). -/
noncomputable def HullWhite1F.bondPriceE (m : HullWhite1F) (t T : ℚ) (rT : ℝ) :
    Except Err ℝ :=
  if T < t then .error .maturityBeforeCurrent
  else if t < 0 ∨ T < 0 then .error .negativeTimes
  else
    let tau := T - t
    if tau = 0 then .ok 1
    else do
      let a := m.meanReversion
      let sigma := m.volatility
      let pMarketT ← m.yieldCurve.discountFactorE (m.timeToDate t)
      let pMarketTT ← m.yieldCurve.discountFactorE (m.timeToDate T)
      let B := (1 - Real.exp (-a * (tau : ℝ))) / a
      let fri ← m.forwardRateIntegralE t T
      let A := (pMarketTT / pMarketT) * Real.exp
        (B * fri - (1 / 2) * (sigma ^ 2 / a ^ 2) * (B - (tau : ℝ)) *
          (1 - Real.exp (-2 * a * (t : ℝ))))
      .ok (A * Real.exp (-B * rT))

/-- The unit of a parsed frequency string such as "6M" or "1Y"
(`generate_schedule` parses `frequency[:-1]` / `frequency[-1]`; the parsed
pair is taken here directly). -/
inductive FreqUnit
  | month
  | year
  deriving DecidableEq, Repr

/-- One `current_date` advance of `generate_schedule`'s loop. -/
def freqStep (fu : FreqUnit) (fv : ℤ) (d : ℤ) : ℤ :=
  match fu with
  | .month => addMonths d fv
  | .year => addYears d fv

/-- The while-loop of `generate_schedule` (date_helpers.py lines 342-352)
under `BusinessDayRule.NONE` (adjustment is the identity).  `fuel` bounds
the iteration count; running out models the source's divergence for a
non-advancing frequency (e.g. "0M"), which a well-formed call never hits. -/
def genSchedAux (endD fv : ℤ) (fu : FreqUnit) :
    ℕ → ℤ → List ℤ → Except Err (List ℤ)
  | 0, _, _ => .error .fuelOut
  | fuel + 1, current, acc =>
    if current < endD then
      let next := freqStep fu fv current
      genSchedAux endD fv fu fuel next (if next ≤ endD then acc ++ [next] else acc)
    else .ok acc

/-- `generate_schedule(start, end, frequency, BusinessDayRule.NONE)`
(date_helpers.py lines 302-360): starts from the (unadjusted) start date,
advances by the frequency, keeps dates `≤ end`, and appends the end date
when the last kept date differs from it. -/
def generateScheduleNone (start endD fv : ℤ) (fu : FreqUnit) : Except Err (List ℤ) :=
  if endD < start then .error .endBeforeStart
  else do
    let sched ← genSchedAux endD fv fu ((endD - start).toNat + 1) start [start]
    .ok (if sched.getLastD start ≠ endD then sched ++ [endD] else sched)

/-- The fixed-leg period loop of `build_yield_curve_from_swaps`
(yield_curve.py lines 350-368): accumulates the present value of the known
payments and records the year fraction of the period ending at the swap
maturity.  The `year_fraction(start, end)` guard is inlined (`e < prev`). -/
noncomputable def legLoop (c : YieldCurve) (dc : DayCount) (rate : ℝ) (mat : ℤ) :
    ℤ → List ℤ → ℝ → ℚ → Except Err (ℝ × ℚ)
  | _, [], pv, tauMat => .ok (pv, tauMat)
  | prev, e :: rest, pv, tauMat =>
    if e < prev then .error .endBeforeStart
    else
      let tau := yfQ prev e dc
      if e = mat then legLoop c dc rate mat e rest pv tau
      else do
        let dfPay ← c.discountFactorE e
        legLoop c dc rate mat e rest (pv + dfPay * rate * (tau : ℝ)) tauMat

/-- One iteration of the bootstrap loop of `build_yield_curve_from_swaps`
(yield_curve.py lines 306-392): schedule generation, the first-swap
simple-rate branch, and for later swaps the temporary curve, the fixed-leg
scan, the closed-form solve and the (0, 1] range check. -/
noncomputable def bootstrapStep (val : ℤ) (dc : DayCount) (ip : Interp)
    (cp : Compounding) (fv : ℤ) (fu : FreqUnit) (prevDates : List ℤ)
    (prevDfs : List ℝ) (mat : ℤ) (rate : ℝ) : Except Err (ℤ × ℝ) := do
  let schedRaw ← generateScheduleNone val mat fv fu
  let sched := if schedRaw.headD val = val then schedRaw.tail else schedRaw
  if sched.isEmpty then .error .emptySchedule
  else
    match prevDates with
    | [] =>
      if mat < val then .error .endBeforeStart
      else
        let t := yfQ val mat dc
        if t ≤ 0 then .error .pillarNotAfterValuation
        else .ok (mat, 1 / (1 + rate * (t : ℝ)))
    | _ :: _ => do
      let tempCurve ← buildYieldCurveFromDiscountFactors val prevDates prevDfs dc ip cp
      let scan ← legLoop tempCurve dc rate mat val sched 0 0
      let tauMat ← (if sched.getLastD val ≠ mat then
          (if mat < sched.getLastD val then Except.error Err.endBeforeStart
           else .ok (yfQ (sched.getLastD val) mat dc))
        else .ok scan.2)
      let dfMat : ℝ := if 0 < tauMat then (1 - scan.1) / (1 + rate * (tauMat : ℝ)) else 1
      if dfMat ≤ 0 ∨ 1 < dfMat then .error .bootstrapFailed
      else .ok (mat, dfMat)

/-- The bootstrap fold over the maturity-sorted swaps (yield_curve.py
lines 306-392), accumulating pillar dates and discount factors. -/
noncomputable def bootstrapAll (val : ℤ) (dc : DayCount) (ip : Interp)
    (cp : Compounding) (fv : ℤ) (fu : FreqUnit) :
    List (ℤ × ℝ) → List ℤ → List ℝ → Except Err (List ℤ × List ℝ)
  | [], ds, fs => .ok (ds, fs)
  | (mat, rate) :: rest, ds, fs => do
    let p ← bootstrapStep val dc ip cp fv fu ds fs mat rate
    bootstrapAll val dc ip cp fv fu rest (ds ++ [p.1]) (fs ++ [p.2])

/-- `build_yield_curve_from_swaps` (yield_curve.py lines 257-401). -/
noncomputable def buildYieldCurveFromSwaps (val : ℤ) (mats : List ℤ)
    (rates : List ℝ) (fv : ℤ) (fu : FreqUnit) (dc : DayCount) (ip : Interp)
    (cp : Compounding) : Except Err YieldCurve :=
  if mats.length ≠ rates.length then .error .swapLengthMismatch
  else if mats.length = 0 then .error .noSwaps
  else do
    let bs ← bootstrapAll val dc ip cp fv fu (sortPairs (mats.zip rates)) [] []
    buildYieldCurveFromDiscountFactors val bs.1 bs.2 dc ip cp

/-! ### General helpers -/

/-- The payload of an `ok` result, with a default for errors. -/
def exceptOkD {α : Type} (e : Except Err α) (d : α) : α :=
  match e with
  | .ok a => a
  | .error _ => d

/-- Whether a result is `ok`. -/
def exceptIsOk {α : Type} (e : Except Err α) : Bool :=
  match e with
  | .ok _ => true
  | .error _ => false

theorem exceptOk_of_isOk {α : Type} (e : Except Err α) (d : α)
    (h : exceptIsOk e = true) : e = .ok (exceptOkD e d) := by
  cases e with
  | ok a => rfl
  | error _ => simp [exceptIsOk] at h

theorem chainLt_iff_chain {α : Type} [LT α] [DecidableRel (α := α) (· < ·)] :
    ∀ l : List α, chainLt l = true ↔ l.Chain' (· < ·)
  | [] => by simp [chainLt]
  | [a] => by simp [chainLt]
  | a :: b :: rest => by
    rw [List.chain'_cons, ← chainLt_iff_chain (b :: rest)]
    simp [chainLt]

theorem chainLt_pairwise (l : List ℚ) (h : chainLt l = true) :
    l.Pairwise (· < ·) :=
  (List.chain'_iff_pairwise).1 ((chainLt_iff_chain l).1 h)

theorem chainLt_pairwise_int (l : List ℤ) (h : chainLt l = true) :
    l.Pairwise (· < ·) :=
  (List.chain'_iff_pairwise).1 ((chainLt_iff_chain l).1 h)

/-! ### C1: determinism of `simulate_short_rate_path` with supplied shocks -/

/-- C1: for every Hull-White model, every time grid and every explicitly
supplied shock sequence, `simulate_short_rate_path` does not consult the
process-level random source at all: its result is the same function of
(model, times, shocks) for any two states `gen1`, `gen2` of the hidden
random stream, hence two calls with identical inputs return identical
output sequences. -/
theorem simulateShortRatePath_deterministic (m : HullWhite1F) (times : List ℚ)
    (shocks : List ℝ) (gen1 gen2 : ℕ → ℝ) :
    m.simulateShortRatePathE times (some shocks) gen1 =
      m.simulateShortRatePathE times (some shocks) gen2 := by
  cases times with
  | nil => rfl
  | cons t0 rest =>
    simp only [HullWhite1F.simulateShortRatePathE]
    cases h : m.scheme <;>
      simp only [HullWhite1F.simulateExactE, HullWhite1F.simulateEulerE]

/-! ### C10: `forward_rate` inherits `start_date >= valuation_date` -/

/-- C10: `forward_rate(start, end)` with `end > start` but `start` before
the curve's valuation date raises, because the first `discount_factor`
query it performs rejects dates before the valuation date. -/
theorem forwardRate_start_before_valuation (c : YieldCurve) (d1 d2 : ℤ)
    (h1 : d1 < c.valuationDate) (h2 : d1 < d2) :
    c.forwardRateE d1 d2 = .error .targetBeforeValuation := by
  simp only [YieldCurve.forwardRateE, YieldCurve.discountFactorE]
  rw [if_neg (by omega), if_pos h1]
  rfl

/-- A small concrete curve shared by several witnesses: valuation at
ordinal 0, pillars at ordinals 365 and 730 with rates 2% and 3%. -/
noncomputable def curveW : YieldCurve :=
  ⟨0, [365, 730], [(1 : ℝ) / 50, 3 / 100], .act365, .logLinearDf, .cont⟩

theorem forwardRate_start_before_valuation_w :
    curveW.forwardRateE (-5) 10 = .error .targetBeforeValuation :=
  forwardRate_start_before_valuation curveW (-5) 10 (by norm_num [curveW]) (by norm_num)

/-! ### C7: flat clamping of the interpolated zero rate -/

theorem chainLt_head_lt_last (l : List ℚ) (h : chainLt l = true)
    (h2 : 2 ≤ l.length) : l.headD 0 < l.getLastD 0 := by
  induction l with
  | nil => simp at h2
  | cons a rest ih =>
    cases rest with
    | nil => simp at h2
    | cons b rest2 =>
      simp only [chainLt, Bool.and_eq_true, decide_eq_true_eq] at h
      have hbl : b ≤ (b :: rest2).getLastD 0 := by
        rcases rest2 with _ | ⟨c, rest3⟩
        · simp
        · have := ih h.2 (by simp)
          simpa using this.le
      calc (a :: b :: rest2).headD 0 = a := rfl
        _ < b := h.1
        _ ≤ (b :: rest2).getLastD 0 := hbl
        _ = (a :: b :: rest2).getLastD 0 := by simp

/-- C7: with the pillar times strictly increasing and in one-to-one
correspondence with the pillar rates (the `__post_init__` invariants),
`_zero_rate_at_time` clamps flat on both sides for every interpolation
mode: at or below the first pillar time it returns the first rate, at or
above the last pillar time it returns the last rate. -/
theorem zeroRateAtTime_clamps_flat (c : YieldCurve) (t : ℚ)
    (hne : c.pillarDates ≠ [])
    (hlen : c.pillarDates.length = c.pillarZeroRates.length)
    (hchain : chainLt c.pillarTimes = true) :
    (t ≤ c.pillarTimes.headD 0 →
      c.zeroRateAtTime t = c.pillarZeroRates.headD 0) ∧
    (c.pillarTimes.getLastD 0 ≤ t →
      c.zeroRateAtTime t = c.pillarZeroRates.getLastD 0) := by
  constructor
  · intro hle
    simp only [YieldCurve.zeroRateAtTime]
    rw [if_pos hle]
  · intro hge
    simp only [YieldCurve.zeroRateAtTime]
    by_cases hlo : t ≤ c.pillarTimes.headD 0
    · rw [if_pos hlo]
      -- head and last coincide only for a single pillar
      have hlen1 : c.pillarTimes.length = c.pillarDates.length := by
        simp [YieldCurve.pillarTimes]
      rcases hd : c.pillarDates with _ | ⟨d0, rest⟩
      · exact absurd hd hne
      rcases hr : rest with _ | ⟨d1, rest2⟩
      · -- single pillar: rates list has length 1 as well
        subst hr
        have : c.pillarZeroRates.length = 1 := by
          rw [← hlen, hd]
          rfl
        rcases hz : c.pillarZeroRates with _ | ⟨z0, zrest⟩
        · simp [hz] at this
        · rcases zrest with _ | ⟨z1, _⟩
          · simp
          · simp [hz] at this
      · -- at least two pillars: head time < last time contradicts both bounds
        exfalso
        have h2 : 2 ≤ c.pillarTimes.length := by
          rw [hlen1, hd, hr]
          simp
        have := chainLt_head_lt_last c.pillarTimes hchain h2
        have : c.pillarTimes.getLastD 0 < c.pillarTimes.getLastD 0 :=
          lt_of_le_of_lt (le_trans hge hlo) this
        exact lt_irrefl _ this
    · rw [if_neg hlo, if_pos hge]

theorem zeroRateAtTime_clamps_flat_w :
    ((0 : ℚ) ≤ curveW.pillarTimes.headD 0 →
      curveW.zeroRateAtTime 0 = curveW.pillarZeroRates.headD 0) ∧
    (curveW.pillarTimes.getLastD 0 ≤ 0 →
      curveW.zeroRateAtTime 0 = curveW.pillarZeroRates.getLastD 0) :=
  zeroRateAtTime_clamps_flat curveW 0 (by simp [curveW]) (by simp [curveW])
    (by norm_num [curveW, YieldCurve.pillarTimes, yfQ, chainLt])

/-! ### C9: flat interpolation on the volatility surface -/

theorem getD_mem_of_lt {α : Type} (l : List α) (k : ℕ) (d : α) (h : k < l.length) :
    l.getD k d ∈ l := by
  rw [List.getD_eq_getElem l d h]
  exact List.getElem_mem h

/-- C9 (amended): with flat interpolation every query returns the
lower-bracket grid entry, so the surface is constant over in-range queries
exactly when the stored grid entries are all one value: for a flat-interp
surface whose matrix entries all equal `v`, every in-range query (expiry
within the expiry-time range, tenor within the tenor-time range, both
non-negative) returns `v`, hence any two such queries agree. -/
theorem flat_surface_constant_when_grid_constant (S : VolSurface) (v : ℝ)
    (hflat : S.interp = .flat)
    (hme : S.expiryTimes ≠ []) (hmt : S.tenorTimes ≠ [])
    (hrows : S.volMatrix.length = S.expiryTimes.length)
    (hcols : ∀ row ∈ S.volMatrix, row.length = S.tenorTimes.length)
    (hv : ∀ row ∈ S.volMatrix, ∀ x ∈ row, x = v)
    (e t : ℚ) (he0 : 0 ≤ e) (ht0 : 0 ≤ t)
    (heL : S.expiryTimes.headD 0 ≤ e) (heR : e ≤ S.expiryTimes.getLastD 0)
    (htL : S.tenorTimes.headD 0 ≤ t) (htR : t ≤ S.tenorTimes.getLastD 0) :
    S.volatilityAtTimesE e t = .ok v := by
  have hmat1 : 0 < S.volMatrix.length := by
    rw [hrows]
    exact List.length_pos.mpr hme
  have hten1 : 0 < S.tenorTimes.length := List.length_pos.mpr hmt
  have entry : ∀ k : ℕ, k < S.volMatrix.length → ∀ j : ℕ,
      j < S.tenorTimes.length → (S.volMatrix.getD k []).getD j 0 = v := by
    intro k hk j hj
    have hrow := getD_mem_of_lt _ k [] hk
    have hlenrow : (S.volMatrix.getD k []).length = S.tenorTimes.length := hcols _ hrow
    exact hv _ hrow _ (getD_mem_of_lt _ j 0 (by omega))
  have hExp : ∀ k : ℕ, k < S.expiryTimes.length → k < S.volMatrix.length := by
    intro k hk; omega
  have rowlen : ∀ k : ℕ, k < S.volMatrix.length →
      (S.volMatrix.getD k []).length = S.tenorTimes.length := by
    intro k hk
    exact hcols _ (getD_mem_of_lt _ k [] hk)
  -- bounds for the interior branch of `_find_index`
  have hFi : ∀ (ts : List ℚ) (x : ℚ), ts ≠ [] → ¬ (findIdx ts x < 0) →
      ¬ ((ts.length : ℤ) - 1 ≤ findIdx ts x) → 0 ≤ findIdx ts x ∧
        findIdx ts x < (ts.length : ℤ) - 1 := by
    intro ts x _ h1 h2
    exact ⟨not_lt.mp h1, not_le.mp h2⟩
  simp only [VolSurface.volatilityAtTimesE, VolSurface.interp1d, hflat,
    if_neg (not_lt.mpr he0), if_neg (not_lt.mpr ht0), if_pos rfl]
  by_cases hE1 : findIdx S.expiryTimes e < 0
  all_goals by_cases hT1 : findIdx S.tenorTimes t < 0
  all_goals try by_cases hE2 : (S.expiryTimes.length : ℤ) - 1 ≤ findIdx S.expiryTimes e
  all_goals try by_cases hT2 : (S.tenorTimes.length : ℤ) - 1 ≤ findIdx S.tenorTimes t
  all_goals simp only [hE1, hT1, if_true, if_false]
  all_goals try simp only [hE2, if_true, if_false]
  all_goals try simp only [hT2, if_true, if_false]
  all_goals try by_cases hEx : S.expiryTimes.length > 1 ∧ S.extrap = VExtrap.linear
  all_goals try rw [if_pos hEx]
  all_goals try rw [if_neg hEx]
  all_goals try rw [rowlen _ (by omega)]
  all_goals exact congrArg Except.ok (entry _ (by omega) _ (by omega))


/-- Constant 2-by-2 flat-interpolation surface for the C9 witness. -/
noncomputable def volCW : VolSurface :=
  ⟨0, [1, 2], [1, 2], [[(1 : ℝ) / 5, 1 / 5], [1 / 5, 1 / 5]], .flat, .flat, .act365⟩

theorem flat_surface_constant_when_grid_constant_w :
    volCW.volatilityAtTimesE (3 / 2) (3 / 2) = .ok (1 / 5) :=
  flat_surface_constant_when_grid_constant volCW (1 / 5) rfl
    (by simp [volCW]) (by simp [volCW]) (by simp [volCW])
    (by norm_num [volCW]) (by norm_num [volCW])
    (3 / 2) (3 / 2) (by norm_num) (by norm_num)
    (by norm_num [volCW]) (by norm_num [volCW]) (by norm_num [volCW]) (by norm_num [volCW])

/-- Non-constant 1-by-2 flat-interpolation surface refuting C9 as stated. -/
noncomputable def volXW : VolSurface :=
  ⟨0, [1], [1, 2], [[(1 : ℝ) / 5, 3 / 10]], .flat, .flat, .act365⟩

/-- C9 counterexample: a flat-interpolation surface with expiry range
[1, 1] and tenor range [1, 2]; the in-range queries (1, 1) and (1, 2)
return the two different stored entries 0.20 and 0.30. -/
theorem flat_surface_not_constant_cex :
    volXW.interp = VInterp.flat ∧
    volXW.volatilityAtTimesE 1 1 = .ok (1 / 5) ∧
    volXW.volatilityAtTimesE 1 2 = .ok (3 / 10) ∧
    ((1 : ℝ) / 5 ≠ 3 / 10) ∧
    volXW.expiryTimes.headD 0 ≤ 1 ∧ (1 : ℚ) ≤ volXW.expiryTimes.getLastD 0 ∧
    volXW.tenorTimes.headD 0 ≤ 1 ∧ (2 : ℚ) ≤ volXW.tenorTimes.getLastD 0 := by
  refine ⟨rfl, ?_, ?_, by norm_num, by norm_num [volXW], by norm_num [volXW],
    by norm_num [volXW], by norm_num [volXW]⟩ <;>
  norm_num [volXW, VolSurface.volatilityAtTimesE, findIdx, bisectRight,
    VolSurface.getBounds, VolSurface.interp1d]

/-! ### C8: validation failures of `simulate_short_rate_path` -/

theorem intTrunc_nonneg (q : ℚ) (h : 0 ≤ q) : 0 ≤ intTrunc q :=
  Int.tdiv_nonneg (Rat.num_nonneg.mpr h) (by positivity)

theorem timeToDate_ge_valuation (m : HullWhite1F) (t : ℚ) (h : 0 ≤ t) :
    m.yieldCurve.valuationDate ≤ m.timeToDate t := by
  simp only [HullWhite1F.timeToDate]
  have h1 : 0 ≤ intTrunc (t * 360) := intTrunc_nonneg _ (by positivity)
  have h2 : 0 ≤ intTrunc (t * 365) := intTrunc_nonneg _ (by positivity)
  cases m.dayCount <;> dsimp only <;> omega

theorem initialShortRate_ok (m : HullWhite1F) (t : ℚ) (h : 0 ≤ t) :
    ∃ r, m.initialShortRateE t = .ok r := by
  have := timeToDate_ge_valuation m t h
  simp only [HullWhite1F.initialShortRateE, YieldCurve.zeroRateE]
  rw [if_neg (by omega)]
  by_cases h0 : yfQ m.yieldCurve.valuationDate (m.timeToDate t) m.yieldCurve.dayCount = 0
  · rw [if_pos h0]; exact ⟨_, rfl⟩
  · rw [if_neg h0]; exact ⟨_, rfl⟩

theorem chainLt_head_le {α : Type} [LinearOrder α] (a : α) (l : List α)
    (h : chainLt (a :: l) = true) : ∀ x ∈ a :: l, a ≤ x := by
  induction l generalizing a with
  | nil => intro x hx; simp at hx; simp [hx]
  | cons b rest ih =>
    simp only [chainLt, Bool.and_eq_true, decide_eq_true_eq] at h
    intro x hx
    rcases List.mem_cons.mp hx with hx | hx
    · simp [hx]
    · exact le_trans h.1.le (ih b h.2 x hx)

theorem ok_bind {α β : Type} (a : α) (f : α → Except Err β) :
    (Except.ok a >>= f) = f a := rfl

theorem error_bind {α β : Type} (er : Err) (f : α → Except Err β) :
    ((Except.error er : Except Err α) >>= f) = Except.error er := rfl

theorem bindErr {α β : Type} (e : Except Err α) (f : α → Except Err β)
    (h : ∃ er, e = .error er) : ∃ er, (e >>= f) = .error er := by
  obtain ⟨er, her⟩ := h
  refine ⟨er, ?_⟩
  rw [her]
  rfl

theorem exactSteps_errors_of_not_chain (m : HullWhite1F) :
    ∀ (rest : List ℚ) (tp : ℚ) (r : ℝ) (ss : List ℝ),
      chainLt (tp :: rest) = false →
      ∃ er, m.exactSteps tp r rest ss = .error er := by
  intro rest
  induction rest with
  | nil => intro tp r ss h; simp [chainLt] at h
  | cons t rest2 ih =>
    intro tp r ss h
    simp only [chainLt, Bool.and_eq_false_iff, decide_eq_false_iff_not, not_lt] at h
    simp only [HullWhite1F.exactSteps]
    by_cases hdt : t - tp ≤ 0
    · rw [if_pos hdt]; exact ⟨_, rfl⟩
    · rw [if_neg hdt]
      have hchain2 : chainLt (t :: rest2) = false := by
        rcases h with h | h
        · exact absurd (by linarith) hdt
        · exact h
      cases ss with
      | nil => exact ⟨_, rfl⟩
      | cons w ws =>
        cases hdrift : m.thetaIntegralE tp t with
        | error er => exact ⟨er, by simp only [hdrift, error_bind]⟩
        | ok d =>
          simp only [hdrift, ok_bind]
          exact bindErr _ _ (ih t _ ws hchain2)

theorem eulerSteps_errors_of_not_chain (m : HullWhite1F) :
    ∀ (rest : List ℚ) (tp : ℚ) (r : ℝ) (ss : List ℝ),
      chainLt (tp :: rest) = false →
      ∃ er, m.eulerSteps tp r rest ss = .error er := by
  intro rest
  induction rest with
  | nil => intro tp r ss h; simp [chainLt] at h
  | cons t rest2 ih =>
    intro tp r ss h
    simp only [chainLt, Bool.and_eq_false_iff, decide_eq_false_iff_not, not_lt] at h
    simp only [HullWhite1F.eulerSteps]
    by_cases hdt : t - tp ≤ 0
    · rw [if_pos hdt]; exact ⟨_, rfl⟩
    · rw [if_neg hdt]
      have hchain2 : chainLt (t :: rest2) = false := by
        rcases h with h | h
        · exact absurd (by linarith) hdt
        · exact h
      cases ss with
      | nil => exact ⟨_, rfl⟩
      | cons w ws =>
        cases htheta : m.thetaE tp with
        | error er => exact ⟨er, by simp only [htheta, error_bind]⟩
        | ok d =>
          simp only [htheta, ok_bind]
          exact bindErr _ _ (ih t _ ws hchain2)

/-- C8 (amended): for a NON-EMPTY grid, `simulate_short_rate_path` fails
whenever some time is negative or the grid is not strictly increasing; and
it fails with the length-mismatch error whenever the grid is non-empty,
its first time is non-negative, and the supplied shocks do not number
exactly one fewer than the times.  (An empty grid returns an empty path
without consulting the shocks at all, and a negative first time is
reported before the shock-length check.) -/
theorem simulate_validation_errors (m : HullWhite1F) (times : List ℚ)
    (shocks : Option (List ℝ)) (s : List ℝ) (gen : ℕ → ℝ) :
    (((∃ q ∈ times, q < 0) ∨ chainLt times = false) →
      ∃ er, m.simulateShortRatePathE times shocks gen = .error er) ∧
    (times ≠ [] → 0 ≤ times.headD 0 → s.length + 1 ≠ times.length →
      m.simulateShortRatePathE times (some s) gen = .error .shockLength) := by
  constructor
  · intro h
    cases times with
    | nil =>
      exfalso
      rcases h with ⟨q, hq, _⟩ | h
      · exact absurd hq (List.not_mem_nil q)
      · simp [chainLt] at h
    | cons t0 rest =>
      simp only [HullWhite1F.simulateShortRatePathE]
      by_cases ht0 : t0 < 0
      · rw [if_pos ht0]; exact ⟨_, rfl⟩
      · rw [if_neg ht0]
        have hchainF : chainLt (t0 :: rest) = false := by
          rcases h with ⟨q, hq, hqneg⟩ | h
          · cases hb : chainLt (t0 :: rest) with
            | false => rfl
            | true =>
              exfalso
              have hle := chainLt_head_le t0 rest hb q hq
              have ht0' : ¬ t0 < 0 := ht0
              push_neg at ht0'
              linarith
          · exact h
        obtain ⟨r0, hr0⟩ := initialShortRate_ok m t0 (not_lt.mp ht0)
        simp only [hr0, ok_bind]
        cases m.scheme with
        | exact =>
          dsimp only
          cases shocks with
          | some s2 =>
            simp only [HullWhite1F.simulateExactE, List.headD_cons, List.tail_cons]
            by_cases hlen : s2.length ≠ (t0 :: rest).length - 1
            · rw [if_pos hlen]; exact ⟨_, rfl⟩
            · rw [if_neg hlen]
              exact bindErr _ _ (exactSteps_errors_of_not_chain m rest t0 r0 s2 hchainF)
          | none =>
            simp only [HullWhite1F.simulateExactE, List.headD_cons, List.tail_cons]
            exact bindErr _ _ (exactSteps_errors_of_not_chain m rest t0 r0 _ hchainF)
        | euler =>
          dsimp only
          cases shocks with
          | some s2 =>
            simp only [HullWhite1F.simulateEulerE, List.headD_cons, List.tail_cons]
            by_cases hlen : s2.length ≠ (t0 :: rest).length - 1
            · rw [if_pos hlen]; exact ⟨_, rfl⟩
            · rw [if_neg hlen]
              exact bindErr _ _ (eulerSteps_errors_of_not_chain m rest t0 r0 s2 hchainF)
          | none =>
            simp only [HullWhite1F.simulateEulerE, List.headD_cons, List.tail_cons]
            exact bindErr _ _ (eulerSteps_errors_of_not_chain m rest t0 r0 _ hchainF)
  · intro hne h0 hlen
    cases times with
    | nil => exact absurd rfl hne
    | cons t0 rest =>
      simp only [List.headD_cons] at h0
      simp only [HullWhite1F.simulateShortRatePathE]
      rw [if_neg (not_lt.mpr h0)]
      obtain ⟨r0, hr0⟩ := initialShortRate_ok m t0 h0
      simp only [hr0, ok_bind]
      cases m.scheme with
      | exact =>
        dsimp only
        simp only [HullWhite1F.simulateExactE]
        rw [if_pos (by simp only [List.length_cons] at hlen ⊢; omega)]
      | euler =>
        dsimp only
        simp only [HullWhite1F.simulateEulerE]
        rw [if_pos (by simp only [List.length_cons] at hlen ⊢; omega)]

/-- Hull-White model over `curveW` shared by several witnesses. -/
noncomputable def hwW : HullWhite1F := ⟨curveW, 1, 1 / 10, .exact, .act365⟩

/-- C8 counterexample: with an empty time grid the call returns an empty
path without checking the supplied shocks (whose length 0 differs from
`len(times) - 1 = -1`), and with a negative first time plus mismatched
shocks the failure is the negative-time error, not the length-mismatch
error. -/
theorem simulate_shock_length_cex :
    hwW.simulateShortRatePathE [] (some []) (fun _ => 0) = .ok [] ∧
    ((0 : ℤ) ≠ (0 : ℤ) - 1) ∧
    hwW.simulateShortRatePathE [-1, 2] (some []) (fun _ => 0) = .error .negativeTimes ∧
    Err.negativeTimes ≠ Err.shockLength := by
  refine ⟨rfl, by decide, ?_, by decide⟩
  simp only [HullWhite1F.simulateShortRatePathE]
  rw [if_pos (by norm_num)]

/-! ### C4: domain of `bond_price` -/

theorem intTrunc_eq_floor (q : ℚ) (h : 0 ≤ q) : intTrunc q = ⌊q⌋ := by
  rw [intTrunc, Rat.floor_def, Int.tdiv_eq_ediv (Rat.num_nonneg.mpr h) (by positivity)]

theorem intTrunc_mono (p q : ℚ) (hp : 0 ≤ p) (hle : p ≤ q) :
    intTrunc p ≤ intTrunc q := by
  rw [intTrunc_eq_floor p hp, intTrunc_eq_floor q (le_trans hp hle)]
  exact Int.floor_le_floor hle

theorem timeToDate_mono (m : HullWhite1F) (t T : ℚ) (ht : 0 ≤ t) (hle : t ≤ T) :
    m.timeToDate t ≤ m.timeToDate T := by
  simp only [HullWhite1F.timeToDate]
  have h360 := intTrunc_mono (t * 360) (T * 360) (by positivity) (by nlinarith)
  have h365 := intTrunc_mono (t * 365) (T * 365) (by positivity) (by nlinarith)
  cases m.dayCount <;> dsimp only <;> omega

theorem discountFactor_ok (c : YieldCurve) (d : ℤ) (h : c.valuationDate ≤ d) :
    ∃ x, c.discountFactorE d = .ok x := by
  simp only [YieldCurve.discountFactorE]
  rw [if_neg (by omega)]
  by_cases h0 : yfQ c.valuationDate d c.dayCount = 0
  · rw [if_pos h0]; exact ⟨_, rfl⟩
  · rw [if_neg h0]; exact ⟨_, rfl⟩

theorem forwardRate_ok (c : YieldCurve) (d1 d2 : ℤ) (hlt : d1 < d2)
    (hval : c.valuationDate ≤ d1) : ∃ x, c.forwardRateE d1 d2 = .ok x := by
  simp only [YieldCurve.forwardRateE]
  rw [if_neg (by omega)]
  obtain ⟨x1, h1⟩ := discountFactor_ok c d1 hval
  obtain ⟨x2, h2⟩ := discountFactor_ok c d2 (by omega)
  simp only [h1, h2, ok_bind]
  exact ⟨_, rfl⟩

/-- C4 (amended): `bond_price(t, T, r_t)` fails if and only if `T < t`, a
time is negative, or `0 ≤ t < T` but the day-count conversion maps `t` and
`T` to the same calendar date (`int(t*365)` equals `int(T*365)`), in which
case the internal `forward_rate` call rejects its collapsed date interval;
it returns exactly 1 when `T` equals `t ≥ 0`, and succeeds for all other
valid inputs (distinct converted dates). -/
theorem bondPrice_domain (m : HullWhite1F) (t T : ℚ) (rT : ℝ) :
    ((∃ er, m.bondPriceE t T rT = .error er) ↔
      (T < t ∨ t < 0 ∨ T < 0 ∨
        (0 ≤ t ∧ t < T ∧ m.timeToDate t = m.timeToDate T))) ∧
    (0 ≤ t → m.bondPriceE t t rT = .ok 1) := by
  have hsame : (0 ≤ t → m.bondPriceE t t rT = .ok 1) := by
    intro h0
    simp only [HullWhite1F.bondPriceE]
    rw [if_neg (lt_irrefl t), if_neg (not_or.mpr ⟨not_lt.mpr h0, not_lt.mpr h0⟩),
      if_pos (sub_self t)]
  refine ⟨?_, hsame⟩
  by_cases h1 : T < t
  · simp only [HullWhite1F.bondPriceE, if_pos h1]
    exact ⟨fun _ => Or.inl h1, fun _ => ⟨_, rfl⟩⟩
  by_cases h2 : t < 0 ∨ T < 0
  · simp only [HullWhite1F.bondPriceE, if_neg h1, if_pos h2]
    refine ⟨fun _ => ?_, fun _ => ⟨_, rfl⟩⟩
    rcases h2 with h2 | h2
    · exact Or.inr (Or.inl h2)
    · exact Or.inr (Or.inr (Or.inl h2))
  have h1' : t ≤ T := not_lt.mp h1
  have h2' : 0 ≤ t ∧ 0 ≤ T := by
    push_neg at h2
    exact h2
  by_cases h3 : T - t = 0
  · simp only [HullWhite1F.bondPriceE, if_neg h1, if_neg h2, if_pos h3]
    constructor
    · rintro ⟨er, her⟩
      exact absurd her (by simp)
    · rintro (h | h | h | h)
      · exact absurd h h1
      · exact absurd h (not_lt.mpr h2'.1)
      · exact absurd h (not_lt.mpr h2'.2)
      · have hTt : T = t := by linarith
        rw [hTt] at h
        exact absurd h.2.1 (lt_irrefl t)
  · -- 0 ≤ t < T
    have htT : t < T := lt_of_le_of_ne h1' (fun he => h3 (by rw [he]; ring))
    have h0t : 0 ≤ t := h2'.1
    have hvalt : m.yieldCurve.valuationDate ≤ m.timeToDate t :=
      timeToDate_ge_valuation m t h0t
    have hvalT : m.yieldCurve.valuationDate ≤ m.timeToDate T :=
      timeToDate_ge_valuation m T h2'.2
    have hdatele : m.timeToDate t ≤ m.timeToDate T := timeToDate_mono m t T h0t htT.le
    obtain ⟨pt, hpt⟩ := discountFactor_ok m.yieldCurve (m.timeToDate t) hvalt
    obtain ⟨pT, hpT⟩ := discountFactor_ok m.yieldCurve (m.timeToDate T) hvalT
    simp only [HullWhite1F.bondPriceE, if_neg h1, if_neg h2, if_neg h3, hpt, hpT, ok_bind,
      HullWhite1F.forwardRateIntegralE]
    by_cases h4 : m.timeToDate t = m.timeToDate T
    · have hfr : m.yieldCurve.forwardRateE (m.timeToDate t) (m.timeToDate T) =
          .error .endNotAfterStart := by
        simp only [YieldCurve.forwardRateE]
        rw [if_pos (by omega)]
      simp only [hfr, error_bind]
      constructor
      · intro _
        exact Or.inr (Or.inr (Or.inr ⟨h0t, htT, h4⟩))
      · intro _
        exact ⟨_, rfl⟩
    · have hdlt : m.timeToDate t < m.timeToDate T := lt_of_le_of_ne hdatele h4
      obtain ⟨fw, hfw⟩ := forwardRate_ok m.yieldCurve _ _ hdlt hvalt
      simp only [hfw, ok_bind]
      constructor
      · rintro ⟨er, her⟩
        exact absurd her (by simp)
      · rintro (h | h | h | h)
        · exact absurd h h1
        · exact absurd h (not_lt.mpr h2'.1)
        · exact absurd h (not_lt.mpr h2'.2)
        · exact absurd h.2.2 h4

theorem intTrunc_eq_zero (q : ℚ) (h0 : 0 ≤ q) (h1 : q < 1) : intTrunc q = 0 := by
  rw [intTrunc_eq_floor q h0]
  exact Int.floor_eq_zero_iff.mpr ⟨h0, h1⟩

/-- C4 counterexample: at t = 1e-4 and T = 2e-4 (a valid pair with
0 ≤ t < T) both times map to the valuation date under `int(t*365)`, and
`bond_price` raises from the collapsed forward-rate interval instead of
returning a value. -/
theorem bondPrice_valid_input_raises_cex :
    hwW.bondPriceE (1 / 10000) (2 / 10000) 0 = .error .endNotAfterStart ∧
    (0 : ℚ) ≤ 1 / 10000 ∧ (1 / 10000 : ℚ) < 2 / 10000 := by
  refine ⟨?_, by norm_num, by norm_num⟩
  have ht1 : intTrunc (1 / 10000 * 365) = 0 := intTrunc_eq_zero _ (by norm_num) (by norm_num)
  have ht2 : intTrunc (2 / 10000 * 365) = 0 := intTrunc_eq_zero _ (by norm_num) (by norm_num)
  have hd1 : hwW.timeToDate (1 / 10000) = 0 := by
    simp only [HullWhite1F.timeToDate, hwW, curveW]
    rw [ht1]
    rfl
  have hd2 : hwW.timeToDate (2 / 10000) = 0 := by
    simp only [HullWhite1F.timeToDate, hwW, curveW]
    rw [ht2]
    rfl
  have hdf : hwW.yieldCurve.discountFactorE 0 = .ok 1 := by
    simp only [YieldCurve.discountFactorE, hwW, curveW]
    rw [if_neg (lt_irrefl 0), if_pos (by norm_num [yfQ])]
  have hfr : hwW.yieldCurve.forwardRateE 0 0 = .error .endNotAfterStart := by
    simp only [YieldCurve.forwardRateE]
    rw [if_pos (le_refl 0)]
  simp only [HullWhite1F.bondPriceE]
  rw [if_neg (by norm_num), if_neg (by norm_num), if_neg (by norm_num)]
  simp only [hd1, hd2, hdf, ok_bind, HullWhite1F.forwardRateIntegralE, hfr, error_bind]

/-! ### C5: failure condition of `build_yield_curve_from_discount_factors` -/

theorem sortPairs_of_chain {β : Type} (l : List (ℤ × β))
    (h : chainLt (l.map Prod.fst) = true) : sortPairs l = l := by
  induction l with
  | nil => rfl
  | cons p rest ih =>
    have hrest : chainLt (rest.map Prod.fst) = true := by
      cases rest with
      | nil => rfl
      | cons q qs =>
        simp only [List.map_cons, chainLt, Bool.and_eq_true] at h
        exact h.2
    show insertPair p (sortPairs rest) = p :: rest
    rw [ih hrest]
    cases rest with
    | nil => rfl
    | cons q qs =>
      have hpq : p.1 < q.1 := by
        simp only [List.map_cons, chainLt, Bool.and_eq_true, decide_eq_true_eq] at h
        exact h.1
      simp [insertPair, hpq]

theorem yfQ_act365_pos (val d : ℤ) (h : val < d) : 0 < yfQ val d .act365 := by
  simp only [yfQ]
  have hnum : (0 : ℚ) < ((d - val : ℤ) : ℚ) := by
    exact_mod_cast (by omega : (0 : ℤ) < d - val)
  exact div_pos hnum (by norm_num)

theorem yfQ_act365_lt (val a b : ℤ) (h : a < b) :
    yfQ val a .act365 < yfQ val b .act365 := by
  simp only [yfQ]
  have h2 : ((a - val : ℤ) : ℚ) < ((b - val : ℤ) : ℚ) := by
    exact_mod_cast (by omega : a - val < b - val)
  gcongr

theorem chainLt_map_act365 (val : ℤ) :
    ∀ dates : List ℤ, chainLt dates = true →
      chainLt (dates.map (fun d => yfQ val d .act365)) = true := by
  intro dates
  induction dates with
  | nil => intro h; rfl
  | cons a rest ih =>
    intro h
    cases rest with
    | nil => rfl
    | cons b qs =>
      simp only [chainLt, Bool.and_eq_true, decide_eq_true_eq] at h
      simp only [List.map_cons, chainLt, Bool.and_eq_true, decide_eq_true_eq]
      exact ⟨yfQ_act365_lt val a b h.1, by simpa using ih h.2⟩

theorem mkYieldCurve_ok (val : ℤ) (dates : List ℤ) (rates : List ℝ)
    (dc : DayCount) (ip : Interp) (cp : Compounding)
    (hlen : dates.length = rates.length) (hne : dates ≠ [])
    (hchain : chainLt dates = true) (hge : ∀ d ∈ dates, val ≤ d)
    (htchain : chainLt (dates.map (fun d => yfQ val d dc)) = true) :
    mkYieldCurve val dates rates dc ip cp = .ok ⟨val, dates, rates, dc, ip, cp⟩ := by
  have e2 : (dates.zip rates).map Prod.fst = dates :=
    List.map_fst_zip dates rates (le_of_eq hlen)
  have e3 : (dates.zip rates).map Prod.snd = rates :=
    List.map_snd_zip dates rates (ge_of_eq hlen)
  have e1 : sortPairs (dates.zip rates) = dates.zip rates :=
    sortPairs_of_chain _ (by rw [e2]; exact hchain)
  simp only [mkYieldCurve, e1, e2, e3]
  rw [if_neg (by omega)]
  rw [if_neg (by simpa using hne)]
  rw [if_neg (by
    simp only [List.any_eq_true, decide_eq_true_eq]
    rintro ⟨d, hd, hlt⟩
    exact absurd hlt (not_lt.mpr (hge d hd)))]
  rw [if_neg (by rw [hchain]; simp)]
  rw [if_neg (by rw [htchain]; simp)]

theorem zerosOfDfsE_ok (val : ℤ) (cp : Compounding) :
    ∀ (dates : List ℤ) (dfs : List ℝ),
      (∀ d ∈ dates, val < d) →
      (∀ df ∈ dfs, 0 < df ∧ df < 1 + 1 / 1000000000000) →
      ∃ zs, zerosOfDfsE val .act365 cp dates dfs = .ok zs ∧
        zs.length = min dates.length dfs.length := by
  intro dates
  induction dates with
  | nil => intro dfs _ _; exact ⟨[], rfl, by simp [zerosOfDfsE]⟩
  | cons d ds ih =>
    intro dfs hd hdf
    cases dfs with
    | nil => exact ⟨[], rfl, by simp [zerosOfDfsE]⟩
    | cons df dfs2 =>
      obtain ⟨zs, hzs, hzlen⟩ := ih dfs2 (fun x hx => hd x (List.mem_cons_of_mem d hx))
        (fun x hx => hdf x (List.mem_cons_of_mem df hx))
      have hdf0 := hdf df (List.mem_cons_self df dfs2)
      refine ⟨zeroOfDf cp df (yfQ val d .act365) :: zs, ?_, by simp [hzlen]; omega⟩
      simp only [zerosOfDfsE]
      rw [if_neg (not_lt.mpr (le_of_lt (hd d (List.mem_cons_self d ds))))]
      rw [if_neg (not_le.mpr (yfQ_act365_pos val d (hd d (List.mem_cons_self d ds))))]
      rw [if_neg (by push_neg; exact hdf0)]
      simp only [hzs, ok_bind]

theorem zerosOfDfsE_err (val : ℤ) (cp : Compounding) :
    ∀ (dates : List ℤ) (dfs : List ℝ), dates.length = dfs.length →
      (∀ d ∈ dates, val < d) →
      (∃ df ∈ dfs, df ≤ 0 ∨ 1 + 1 / 1000000000000 ≤ df) →
      ∃ er, zerosOfDfsE val .act365 cp dates dfs = .error er := by
  intro dates
  induction dates with
  | nil =>
    intro dfs hlen _ hbad
    cases dfs with
    | nil => simp at hbad
    | cons _ _ => simp at hlen
  | cons d ds ih =>
    intro dfs hlen hd hbad
    cases dfs with
    | nil => simp at hlen
    | cons df dfs2 =>
      simp only [zerosOfDfsE]
      rw [if_neg (not_lt.mpr (le_of_lt (hd d (List.mem_cons_self d ds))))]
      rw [if_neg (not_le.mpr (yfQ_act365_pos val d (hd d (List.mem_cons_self d ds))))]
      by_cases hbad0 : df ≤ 0 ∨ df ≥ 1 + 1 / 1000000000000
      · rw [if_pos hbad0]
        exact ⟨_, rfl⟩
      · rw [if_neg hbad0]
        have hbad2 : ∃ x ∈ dfs2, x ≤ 0 ∨ 1 + 1 / 1000000000000 ≤ x := by
          rcases hbad with ⟨x, hx, hxb⟩
          rcases List.mem_cons.mp hx with hx | hx
          · exfalso
            apply hbad0
            rw [hx] at hxb
            exact hxb
          · exact ⟨x, hx, hxb⟩
        have := ih dfs2 (by simpa using hlen)
          (fun x hx => hd x (List.mem_cons_of_mem d hx)) hbad2
        exact bindErr _ _ this

/-- C5 (amended): with equal-length inputs, strictly increasing pillar
dates all strictly after the valuation date, at least one pillar, and the
builder's default ACT/365 day count, `build_yield_curve_from_discount_factors`
fails if and only if some discount factor is `≤ 0` or `≥ 1 + 1e-12` — the
source's range check carries a `1e-12` tolerance, so discount factors
slightly above 1 are accepted. -/
theorem buildFromDfs_error_iff (val : ℤ) (dates : List ℤ) (dfs : List ℝ)
    (ip : Interp) (cp : Compounding)
    (hlen : dates.length = dfs.length) (hne : dates ≠ [])
    (hchain : chainLt dates = true) (hpos : ∀ d ∈ dates, val < d) :
    (∃ er, buildYieldCurveFromDiscountFactors val dates dfs .act365 ip cp = .error er) ↔
      ∃ df ∈ dfs, df ≤ 0 ∨ 1 + 1 / 1000000000000 ≤ df := by
  constructor
  · intro herr
    by_contra hok
    push_neg at hok
    obtain ⟨zs, hzs, hzlen⟩ := zerosOfDfsE_ok val cp dates dfs hpos
      (fun df hdf => ⟨(hok df hdf).1, (hok df hdf).2⟩)
    have hmk := mkYieldCurve_ok val dates zs .act365 ip cp
      (by omega) hne hchain (fun d hd => le_of_lt (hpos d hd))
      (chainLt_map_act365 val dates hchain)
    rcases herr with ⟨er, her⟩
    rw [buildYieldCurveFromDiscountFactors, if_neg (by omega)] at her
    rw [hzs, ok_bind, hmk] at her
    exact absurd her (by simp)
  · intro hbad
    obtain ⟨er, her⟩ := zerosOfDfsE_err val cp dates dfs hlen hpos hbad
    rw [buildYieldCurveFromDiscountFactors, if_neg (by omega)]
    exact bindErr _ _ ⟨er, her⟩

theorem buildFromDfs_error_iff_w :
    (∃ er, buildYieldCurveFromDiscountFactors 0 [365] [(1 : ℝ) / 2]
        .act365 .logLinearDf .cont = .error er) ↔
      ∃ df ∈ [(1 : ℝ) / 2], df ≤ 0 ∨ 1 + 1 / 1000000000000 ≤ df :=
  buildFromDfs_error_iff 0 [365] [(1 : ℝ) / 2] .logLinearDf .cont rfl
    (by simp) rfl (by intro d hd; simp at hd; omega)

/-- C5 counterexample: the discount factor `1 + 1e-13` lies strictly above
1, yet the builder accepts it because the source's range check uses the
tolerance `df >= 1.0 + 1e-12`; the construction succeeds. -/
theorem buildFromDfs_tolerance_cex :
    exceptIsOk (buildYieldCurveFromDiscountFactors 0 [365]
      [1 + 1 / 10000000000000] .act365 .logLinearDf .cont) = true ∧
    (1 : ℝ) < 1 + 1 / 10000000000000 := by
  refine ⟨?_, by norm_num⟩
  obtain ⟨zs, hzs, hzlen⟩ := zerosOfDfsE_ok 0 .cont [365] [1 + 1 / 10000000000000]
    (by intro d hd; simp at hd; omega)
    (by intro df hdf; simp at hdf; subst hdf; constructor <;> norm_num)
  rw [buildYieldCurveFromDiscountFactors, if_neg (by simp)]
  rw [hzs, ok_bind]
  rw [mkYieldCurve_ok 0 [365] zs .act365 .logLinearDf .cont
    (by simp at hzlen ⊢; omega) (by simp) rfl
    (by intro d hd; simp at hd; omega) (chainLt_map_act365 0 [365] rfl)]
  rfl

/-! ### C6: round-trip through the discount-factor builder -/

theorem headD_eq_getD {α : Type} (l : List α) (d : α) : l.headD d = l.getD 0 d := by
  cases l <;> rfl

theorem getLastD_eq_getD {α : Type} :
    ∀ (l : List α) (d : α), l.getLastD d = l.getD (l.length - 1) d := by
  intro l
  induction l with
  | nil => intro d; rfl
  | cons a rest ih =>
    intro d
    cases rest with
    | nil => rfl
    | cons b qs =>
      rw [show (a :: b :: qs).getLastD d = (b :: qs).getLastD d by simp [List.getLastD]]
      rw [ih d]
      simp

/-- Side condition making `_rate_from_df` a genuine inverse of
`_df_from_rate` at (z, t); always true for the zero rates the
discount-factor builder produces from a discount factor in (0, 1]. -/
def rateOkay (cp : Compounding) (z : ℝ) (t : ℚ) : Prop :=
  match cp with
  | .cont => True
  | .annual => 0 < 1 + z
  | .simple => 0 < 1 + z * (t : ℝ)

theorem dfFromRate_pos (cp : Compounding) (z : ℝ) (t : ℚ) (h : rateOkay cp z t) :
    0 < dfFromRate cp z t := by
  cases cp with
  | cont => exact Real.exp_pos _
  | annual =>
    simp only [rateOkay] at h
    simp only [dfFromRate]
    exact div_pos one_pos (Real.rpow_pos_of_pos h _)
  | simple =>
    simp only [rateOkay] at h
    simp only [dfFromRate]
    exact div_pos one_pos h

theorem rateFromDf_dfFromRate (cp : Compounding) (z0 z : ℝ) (t : ℚ) (ht : t ≠ 0)
    (h : rateOkay cp z t) : rateFromDf cp z0 (dfFromRate cp z t) t = z := by
  have htR : ((t : ℚ) : ℝ) ≠ 0 := by exact_mod_cast ht
  cases cp with
  | cont =>
    simp only [rateFromDf, dfFromRate, if_neg ht]
    rw [Real.log_exp]
    field_simp
  | annual =>
    simp only [rateOkay] at h
    simp only [rateFromDf, dfFromRate, if_neg ht]
    rw [one_div, Real.inv_rpow (Real.rpow_nonneg h.le _)]
    rw [← Real.rpow_mul h.le]
    rw [show (t : ℝ) * (-1 / (t : ℝ)) = -1 by field_simp]
    rw [Real.rpow_neg_one, inv_inv]
    ring
  | simple =>
    simp only [rateOkay] at h
    simp only [rateFromDf, dfFromRate, if_neg ht]
    have h2 : 1 + z * (t : ℝ) ≠ 0 := ne_of_gt h
    field_simp

theorem rateOkay_zeroOfDf (cp : Compounding) (df : ℝ) (t : ℚ) (hdf : 0 < df)
    (ht : t ≠ 0) : rateOkay cp (zeroOfDf cp df t) t := by
  have htR : ((t : ℚ) : ℝ) ≠ 0 := by exact_mod_cast ht
  cases cp with
  | cont => trivial
  | annual =>
    simp only [rateOkay, zeroOfDf]
    have := Real.rpow_pos_of_pos hdf (-1 / (t : ℝ))
    linarith
  | simple =>
    simp only [rateOkay, zeroOfDf]
    have h1 : 1 + (1 / df - 1) / (t : ℝ) * (t : ℝ) = 1 / df := by
      field_simp
      ring
    rw [h1]
    exact div_pos one_pos hdf

theorem dfFromRate_zeroOfDf (cp : Compounding) (df : ℝ) (t : ℚ) (hdf : 0 < df)
    (ht : t ≠ 0) : dfFromRate cp (zeroOfDf cp df t) t = df := by
  have htR : ((t : ℚ) : ℝ) ≠ 0 := by exact_mod_cast ht
  cases cp with
  | cont =>
    simp only [dfFromRate, zeroOfDf]
    rw [show -(-Real.log df / (t : ℝ)) * (t : ℝ) = Real.log df by field_simp]
    exact Real.exp_log hdf
  | annual =>
    simp only [dfFromRate, zeroOfDf]
    rw [show 1 + (df ^ (-1 / (t : ℝ)) - 1) = df ^ (-1 / (t : ℝ)) by ring]
    rw [← Real.rpow_mul hdf.le]
    rw [show -1 / (t : ℝ) * (t : ℝ) = -1 by field_simp]
    rw [Real.rpow_neg_one, one_div, inv_inv]
  | simple =>
    simp only [dfFromRate, zeroOfDf]
    rw [show 1 + (1 / df - 1) / (t : ℝ) * (t : ℝ) = 1 / df by field_simp; ring]
    rw [one_div, one_div, inv_inv]

theorem linearInterp_left (x0 : ℚ) (y0 : ℝ) (x1 : ℚ) (y1 : ℝ) :
    linearInterp x0 y0 x1 y1 x0 = y0 := by
  simp only [linearInterp]
  by_cases h : x1 = x0
  · rw [if_pos h]
  · rw [if_neg h]
    simp

theorem bisectRight_interior :
    ∀ (ts : List ℚ), ts.Pairwise (· < ·) → ∀ (i : ℕ), i + 1 < ts.length →
      bisectRight ts (ts.getD i 0) = i + 1 := by
  intro ts
  induction ts with
  | nil => intro _ i hi; simp at hi
  | cons x rest ih =>
    intro hp i hi
    obtain ⟨hx, hrest⟩ := List.pairwise_cons.mp hp
    cases i with
    | zero =>
      cases rest with
      | nil => simp at hi
      | cons y qs =>
        have hxy : x < y := hx y (List.mem_cons_self y qs)
        simp only [bisectRight, List.getD_cons_zero]
        rw [List.takeWhile_cons_of_pos (by simp)]
        rw [List.takeWhile_cons_of_neg (by simp [not_le.mpr hxy])]
        rfl
    | succ j =>
      have hj : j + 1 < rest.length := by simpa using hi
      have hmem : rest.getD j 0 ∈ rest := getD_mem_of_lt rest j 0 (by omega)
      simp only [bisectRight, List.getD_cons_succ]
      rw [List.takeWhile_cons_of_pos
        (by simp only [decide_eq_true_eq]; exact le_of_lt (hx _ hmem))]
      have h2 := ih hrest j hj
      simp only [bisectRight] at h2
      rw [List.length_cons, h2]

/-- `_zero_rate_at_time` queried exactly at the i-th pillar time returns
the i-th pillar rate, for either interpolation mode. -/
theorem zeroRateAtTime_pillar (c : YieldCurve)
    (hchain : chainLt c.pillarTimes = true)
    (hlen : c.pillarTimes.length = c.pillarZeroRates.length)
    (hok : ∀ i, i < c.pillarTimes.length →
      rateOkay c.compounding (c.pillarZeroRates.getD i 0) (c.pillarTimes.getD i 0))
    (ht0 : ∀ i, i < c.pillarTimes.length → c.pillarTimes.getD i 0 ≠ 0)
    (i : ℕ) (hi : i < c.pillarTimes.length) :
    c.zeroRateAtTime (c.pillarTimes.getD i 0) = c.pillarZeroRates.getD i 0 := by
  have hp := chainLt_pairwise _ hchain
  have hpg : ∀ a b : ℕ, a < b → b < c.pillarTimes.length →
      c.pillarTimes.getD a 0 < c.pillarTimes.getD b 0 := by
    intro a b hab hb
    rw [List.getD_eq_getElem _ _ (by omega), List.getD_eq_getElem _ _ hb]
    exact List.pairwise_iff_getElem.mp hp a b (by omega) hb hab
  simp only [YieldCurve.zeroRateAtTime]
  rcases Nat.eq_zero_or_pos i with hi0 | hipos
  · subst hi0
    rw [if_pos (le_of_eq (headD_eq_getD c.pillarTimes 0).symm)]
    exact headD_eq_getD c.pillarZeroRates 0
  · rw [if_neg (by
      rw [headD_eq_getD]
      exact not_le.mpr (hpg 0 i hipos hi))]
    by_cases hlast : i = c.pillarTimes.length - 1
    · rw [if_pos (by
        rw [getLastD_eq_getD, ← hlast])]
      rw [getLastD_eq_getD, ← hlen, ← hlast]
    · have hiIn : i + 1 < c.pillarTimes.length := by omega
      rw [if_neg (by
        rw [getLastD_eq_getD]
        exact not_le.mpr (hpg i (c.pillarTimes.length - 1) (by omega) (by omega)))]
      rw [bisectRight_interior c.pillarTimes hp i hiIn]
      simp only [Nat.add_sub_cancel]
      cases hcint : c.interp with
      | linearZero =>
        dsimp only
        exact linearInterp_left _ _ _ _
      | logLinearDf =>
        dsimp only
        rw [linearInterp_left]
        rw [Real.exp_log (dfFromRate_pos _ _ _ (hok i hi))]
        exact rateFromDf_dfFromRate _ _ _ _ (ht0 i hi) (hok i hi)

theorem zerosOfDfsE_eq (val : ℤ) (cp : Compounding) :
    ∀ (dates : List ℤ) (dfs : List ℝ),
      (∀ d ∈ dates, val < d) →
      (∀ df ∈ dfs, 0 < df ∧ df < 1 + 1 / 1000000000000) →
      zerosOfDfsE val .act365 cp dates dfs =
        .ok (List.zipWith (fun d df => zeroOfDf cp df (yfQ val d .act365)) dates dfs) := by
  intro dates
  induction dates with
  | nil => intro dfs _ _; rfl
  | cons d ds ih =>
    intro dfs hd hdf
    cases dfs with
    | nil => rfl
    | cons df dfs2 =>
      have hdf0 := hdf df (List.mem_cons_self df dfs2)
      simp only [zerosOfDfsE]
      rw [if_neg (not_lt.mpr (le_of_lt (hd d (List.mem_cons_self d ds))))]
      rw [if_neg (not_le.mpr (yfQ_act365_pos val d (hd d (List.mem_cons_self d ds))))]
      rw [if_neg (by push_neg; exact hdf0)]
      rw [ih dfs2 (fun x hx => hd x (List.mem_cons_of_mem d hx))
        (fun x hx => hdf x (List.mem_cons_of_mem df hx))]
      rfl

/-- C6: building a curve from discount factors in (0, 1] over strictly
increasing pillar dates after the valuation date (default ACT/365 day
count, any interpolation and compounding mode) and then querying
`discount_factor` at each original pillar date returns exactly the
original discount factors (real arithmetic). -/
theorem buildFromDfs_round_trip (val : ℤ) (dates : List ℤ) (dfs : List ℝ)
    (ip : Interp) (cp : Compounding)
    (hlen : dates.length = dfs.length)
    (hchain : chainLt dates = true) (hpos : ∀ d ∈ dates, val < d)
    (hdf : ∀ df ∈ dfs, 0 < df ∧ df ≤ 1)
    (c : YieldCurve)
    (hc : buildYieldCurveFromDiscountFactors val dates dfs .act365 ip cp = .ok c)
    (i : ℕ) (hi : i < dates.length) :
    c.discountFactorE (dates.getD i 0) = .ok (dfs.getD i 0) := by
  have hne : dates ≠ [] := by
    intro h
    rw [h] at hi
    simp at hi
  have hdf2 : ∀ df ∈ dfs, 0 < df ∧ df < 1 + 1 / 1000000000000 := by
    intro df h
    exact ⟨(hdf df h).1, lt_of_le_of_lt (hdf df h).2 (by norm_num)⟩
  -- identify the built curve
  set Z := List.zipWith (fun d df => zeroOfDf cp df (yfQ val d .act365)) dates dfs with hZ
  have hZlen : Z.length = dates.length := by
    rw [hZ, List.length_zipWith]
    omega
  have hmk := mkYieldCurve_ok val dates Z .act365 ip cp hZlen.symm hne hchain
    (fun d hd => le_of_lt (hpos d hd)) (chainLt_map_act365 val dates hchain)
  rw [buildYieldCurveFromDiscountFactors, if_neg (by omega),
    zerosOfDfsE_eq val cp dates dfs hpos hdf2, ok_bind, hmk] at hc
  have hceq : c = ⟨val, dates, Z, .act365, ip, cp⟩ := by
    injection hc with h
    exact h.symm
  subst hceq
  -- the curve's pillar data
  have hts : YieldCurve.pillarTimes ⟨val, dates, Z, .act365, ip, cp⟩ =
      dates.map (fun d => yfQ val d .act365) := rfl
  have htsi : ∀ j, j < dates.length →
      (dates.map (fun d => yfQ val d .act365)).getD j 0 = yfQ val (dates.getD j 0) .act365 := by
    intro j hj
    rw [List.getD_eq_getElem _ _ (by simpa using hj), List.getD_eq_getElem _ _ hj]
    simp
  have hzsi : ∀ j, j < dates.length → Z.getD j 0 =
      zeroOfDf cp (dfs.getD j 0) (yfQ val (dates.getD j 0) .act365) := by
    intro j hj
    rw [hZ]
    rw [List.getD_eq_getElem _ _ (by rw [List.length_zipWith]; omega),
      List.getD_eq_getElem _ _ hj]
    rw [List.getElem_zipWith]
    congr 1
    rw [List.getD_eq_getElem _ _ (by omega)]
  have hdfi : 0 < dfs.getD i 0 ∧ dfs.getD i 0 ≤ 1 :=
    hdf _ (getD_mem_of_lt dfs i 0 (by omega))
  have htpos : 0 < yfQ val (dates.getD i 0) .act365 :=
    yfQ_act365_pos val _ (hpos _ (getD_mem_of_lt dates i 0 hi))
  -- evaluate discount_factor at the pillar date
  simp only [YieldCurve.discountFactorE]
  rw [if_neg (not_lt.mpr (le_of_lt (hpos _ (getD_mem_of_lt dates i 0 hi))))]
  rw [if_neg (ne_of_gt htpos)]
  have hpillar := zeroRateAtTime_pillar ⟨val, dates, Z, .act365, ip, cp⟩
    (by rw [hts]; exact chainLt_map_act365 val dates hchain)
    (by rw [hts]; simp only [List.length_map]; rw [hZlen])
    (by
      intro j hj
      rw [hts] at hj ⊢
      simp only [List.length_map] at hj
      rw [htsi j hj]
      show rateOkay cp (Z.getD j 0) (yfQ val (dates.getD j 0) .act365)
      rw [hzsi j hj]
      have hdfj := hdf _ (getD_mem_of_lt dfs j 0 (by omega))
      exact rateOkay_zeroOfDf cp _ _ hdfj.1
        (ne_of_gt (yfQ_act365_pos val _ (hpos _ (getD_mem_of_lt dates j 0 hj)))))
    (by
      intro j hj
      rw [hts] at hj ⊢
      simp only [List.length_map] at hj
      rw [htsi j hj]
      exact ne_of_gt (yfQ_act365_pos val _ (hpos _ (getD_mem_of_lt dates j 0 hj))))
    i (by rw [hts]; simpa using hi)
  rw [hts, htsi i hi] at hpillar
  show Except.ok (dfFromRate cp (YieldCurve.zeroRateAtTime _ (yfQ val (dates.getD i 0) .act365)) _) = _
  rw [hpillar]
  show Except.ok (dfFromRate cp (Z.getD i 0) (yfQ val (dates.getD i 0) .act365)) = _
  rw [hzsi i hi]
  rw [dfFromRate_zeroOfDf cp _ _ hdfi.1 (ne_of_gt htpos)]

theorem buildFromDfs_round_trip_w :
    ∃ c, buildYieldCurveFromDiscountFactors 0 [365, 730] [(9 : ℝ) / 10, 4 / 5]
        .act365 .logLinearDf .cont = .ok c ∧
      c.discountFactorE 365 = .ok ((9 : ℝ) / 10) := by
  have hchain : chainLt ([365, 730] : List ℤ) = true := by decide
  have hpos : ∀ d ∈ ([365, 730] : List ℤ), (0 : ℤ) < d := by decide
  have hdfs : ∀ df ∈ [(9 : ℝ) / 10, 4 / 5], 0 < df ∧ df ≤ 1 := by
    intro df h
    simp only [List.mem_cons, List.not_mem_nil, or_false] at h
    rcases h with h | h <;> subst h <;> constructor <;> norm_num
  have hdf2 : ∀ df ∈ [(9 : ℝ) / 10, 4 / 5], 0 < df ∧ df < 1 + 1 / 1000000000000 := by
    intro df h
    exact ⟨(hdfs df h).1, lt_of_le_of_lt (hdfs df h).2 (by norm_num)⟩
  have hmk := mkYieldCurve_ok 0 [365, 730]
    (List.zipWith (fun d df => zeroOfDf .cont df (yfQ 0 d .act365)) [365, 730]
      [(9 : ℝ) / 10, 4 / 5]) .act365 .logLinearDf .cont (by simp) (by simp)
    hchain (fun d hd => le_of_lt (hpos d hd)) (chainLt_map_act365 0 _ hchain)
  have hc : buildYieldCurveFromDiscountFactors 0 [365, 730] [(9 : ℝ) / 10, 4 / 5]
      .act365 .logLinearDf .cont = .ok ⟨0, [365, 730],
        List.zipWith (fun d df => zeroOfDf .cont df (yfQ 0 d .act365)) [365, 730]
          [(9 : ℝ) / 10, 4 / 5], .act365, .logLinearDf, .cont⟩ := by
    rw [buildYieldCurveFromDiscountFactors, if_neg (by simp),
      zerosOfDfsE_eq 0 .cont _ _ hpos hdf2, ok_bind, hmk]
  refine ⟨_, hc, ?_⟩
  have hrt := buildFromDfs_round_trip 0 [365, 730] [(9 : ℝ) / 10, 4 / 5] .logLinearDf .cont
    rfl hchain hpos hdfs _ hc 0 (by norm_num)
  simpa using hrt

/-! ### C3: exact-scheme step formula -/

theorem thetaIntegralE_trapezoid (m : HullWhite1F) (s t : ℚ) (v : ℕ → ℝ)
    (hv : ∀ k : ℕ, k ≤ 10 → m.thetaE (s + (k : ℚ) * ((t - s) / 10)) = .ok (v k)) :
    m.thetaIntegralE s t =
      .ok ((∑ k in Finset.range 11, (if k = 0 ∨ k = 10 then (1 : ℝ) else 2) * v k) *
        (((t - s) / 10 : ℚ) : ℝ) / 2) := by
  simp only [HullWhite1F.thetaIntegralE,
    show List.range 11 = [0, 1, 2, 3, 4, 5, 6, 7, 8, 9, 10] from rfl,
    List.foldlM_cons, List.foldlM_nil]
  rw [hv 0 (by norm_num), hv 1 (by norm_num), hv 2 (by norm_num), hv 3 (by norm_num),
    hv 4 (by norm_num), hv 5 (by norm_num), hv 6 (by norm_num), hv 7 (by norm_num),
    hv 8 (by norm_num), hv 9 (by norm_num), hv 10 (by norm_num)]
  simp only [ok_bind, pure_bind]
  show Except.ok _ = _
  congr 1
  simp only [Finset.sum_range_succ, Finset.sum_range_zero]

theorem exactSteps_step (m : HullWhite1F) :
    ∀ (ts : List ℚ) (ss : List ℝ) (tPrev : ℚ) (rPrev : ℝ) (rs : List ℝ),
      m.exactSteps tPrev rPrev ts ss = .ok rs →
      ∀ i, i < ts.length →
        ∃ drift,
          m.thetaIntegralE ((tPrev :: ts).getD i 0) (ts.getD i 0) = .ok drift ∧
          (rPrev :: rs).getD (i + 1) 0 =
            (rPrev :: rs).getD i 0 * Real.exp (-m.meanReversion *
              ((ts.getD i 0 - (tPrev :: ts).getD i 0 : ℚ) : ℝ)) +
            drift +
            Real.sqrt ((m.volatility ^ 2 / (2 * m.meanReversion)) *
              (1 - Real.exp (-2 * m.meanReversion *
                ((ts.getD i 0 - (tPrev :: ts).getD i 0 : ℚ) : ℝ)))) * ss.getD i 0 := by
  intro ts
  induction ts with
  | nil => intro ss tPrev rPrev rs _ i hi; simp at hi
  | cons t rest ih =>
    intro ss tPrev rPrev rs hok i hi
    simp only [HullWhite1F.exactSteps] at hok
    by_cases hdt : t - tPrev ≤ 0
    · rw [if_pos hdt] at hok
      exact absurd hok (by simp)
    rw [if_neg hdt] at hok
    cases ss with
    | nil => exact absurd hok (by simp)
    | cons w ws =>
      dsimp only at hok
      cases hdrift : m.thetaIntegralE tPrev t with
      | error er =>
        rw [hdrift] at hok
        exact absurd hok (by simp [error_bind])
      | ok d =>
        rw [hdrift, ok_bind] at hok
        cases hrec : m.exactSteps t
            (rPrev * Real.exp (-m.meanReversion * ((t - tPrev : ℚ) : ℝ)) + d +
              Real.sqrt ((m.volatility ^ 2 / (2 * m.meanReversion)) *
                (1 - Real.exp (-2 * m.meanReversion * ((t - tPrev : ℚ) : ℝ)))) * w)
            rest ws with
        | error er =>
          rw [hrec] at hok
          exact absurd hok (by simp [error_bind])
        | ok rs2 =>
          rw [hrec, ok_bind] at hok
          injection hok with h
          subst h
          cases i with
          | zero =>
            refine ⟨d, ?_, ?_⟩
            · simpa using hdrift
            · simp [List.getD_cons_zero, List.getD_cons_succ]
          | succ j =>
            have hj : j < rest.length := by simpa using hi
            obtain ⟨drift, hd1, hd2⟩ := ih ws t _ rs2 hrec j hj
            refine ⟨drift, ?_, ?_⟩
            · simpa using hd1
            · simpa using hd2

/-- C3: under the exact scheme, each step of a successful
`simulate_short_rate_path` run satisfies the claimed recurrence: the next
rate is `r_prev * exp(-a dt)` plus the theta integral over the step —
which, whenever the eleven theta evaluations succeed, equals the composite
trapezoidal quadrature with exactly 10 sub-intervals — plus
`sqrt((sigma^2/(2a)) (1 - exp(-2 a dt)))` times the supplied shock. -/
theorem simulate_exact_step_formula (m : HullWhite1F) (times : List ℚ)
    (shocks : List ℝ) (gen : ℕ → ℝ) (rates : List ℝ)
    (hscheme : m.scheme = .exact)
    (hok : m.simulateShortRatePathE times (some shocks) gen = .ok rates)
    (i : ℕ) (hi : i + 1 < times.length) :
    ∃ drift,
      m.thetaIntegralE (times.getD i 0) (times.getD (i + 1) 0) = .ok drift ∧
      rates.getD (i + 1) 0 =
        rates.getD i 0 * Real.exp (-m.meanReversion *
          ((times.getD (i + 1) 0 - times.getD i 0 : ℚ) : ℝ)) +
        drift +
        Real.sqrt ((m.volatility ^ 2 / (2 * m.meanReversion)) *
          (1 - Real.exp (-2 * m.meanReversion *
            ((times.getD (i + 1) 0 - times.getD i 0 : ℚ) : ℝ)))) * shocks.getD i 0 ∧
      (∀ v : ℕ → ℝ,
        (∀ k : ℕ, k ≤ 10 → m.thetaE (times.getD i 0 + (k : ℚ) *
          ((times.getD (i + 1) 0 - times.getD i 0) / 10)) = .ok (v k)) →
        drift = (∑ k in Finset.range 11,
          (if k = 0 ∨ k = 10 then (1 : ℝ) else 2) * v k) *
          (((times.getD (i + 1) 0 - times.getD i 0) / 10 : ℚ) : ℝ) / 2) := by
  cases times with
  | nil => simp at hi
  | cons t0 rest =>
    simp only [HullWhite1F.simulateShortRatePathE] at hok
    by_cases ht0 : t0 < 0
    · rw [if_pos ht0] at hok
      exact absurd hok (by simp)
    rw [if_neg ht0] at hok
    cases hr0 : m.initialShortRateE t0 with
    | error er =>
      rw [hr0] at hok
      exact absurd hok (by simp [error_bind])
    | ok r0 =>
      rw [hr0, ok_bind, hscheme] at hok
      dsimp only at hok
      simp only [HullWhite1F.simulateExactE, List.headD_cons, List.tail_cons] at hok
      by_cases hlen : shocks.length ≠ (t0 :: rest).length - 1
      · rw [if_pos hlen] at hok
        exact absurd hok (by simp)
      rw [if_neg hlen] at hok
      cases hsteps : m.exactSteps t0 r0 rest shocks with
      | error er =>
        rw [hsteps] at hok
        exact absurd hok (by simp [error_bind])
      | ok rs =>
        rw [hsteps, ok_bind] at hok
        injection hok with h
        subst h
        have hilen : i < rest.length := by simpa using hi
        obtain ⟨drift, hd1, hd2⟩ := exactSteps_step m rest shocks t0 r0 rs hsteps i hilen
        have e1 : (t0 :: rest).getD i 0 = (t0 :: rest).getD i 0 := rfl
        have e2 : ((t0 :: rest) : List ℚ).getD (i + 1) 0 = rest.getD i 0 :=
          List.getD_cons_succ
        refine ⟨drift, ?_, ?_, ?_⟩
        · rw [e2]; exact hd1
        · rw [e2]; exact hd2
        · intro v hv
          rw [e2] at *
          have htr := thetaIntegralE_trapezoid m ((t0 :: rest).getD i 0) (rest.getD i 0) v
            (by
              intro k hk
              exact hv k hk)
          rw [e2] at hd1
          rw [htr] at hd1
          injection hd1 with h2
          exact h2.symm

/-- `_theta` succeeds whenever both finite-difference dates collapse and
are widened to strictly larger dates (the situation for every node of the
witness run below). -/
theorem thetaE_ok_widened (m : HullWhite1F) (t : ℚ)
    (h0 : m.yieldCurve.valuationDate ≤ m.timeToDate t)
    (hw1 : m.timeToDate (t + max (1 / 10000) (t * (1 / 1000000))) ≤ m.timeToDate t)
    (h1 : m.timeToDate t < m.timeToDate (t + max (1 / 100) (t * (1 / 100))))
    (hw2 : m.timeToDate (t + 2 * max (1 / 10000) (t * (1 / 1000000))) ≤
      m.timeToDate (t + max (1 / 100) (t * (1 / 100))))
    (h2 : m.timeToDate (t + max (1 / 100) (t * (1 / 100))) <
      m.timeToDate (t + max (2 / 100) (t * (2 / 100)))) :
    ∃ y, m.thetaE t = .ok y := by
  simp only [HullWhite1F.thetaE]
  rw [if_pos hw1]
  obtain ⟨f1, hf1⟩ := forwardRate_ok m.yieldCurve _ _ h1 h0
  rw [hf1, ok_bind]
  rw [if_pos hw2]
  obtain ⟨f2, hf2⟩ := forwardRate_ok m.yieldCurve _ _ h2 (le_trans h0 (le_of_lt h1))
  rw [hf2, ok_bind]
  exact ⟨_, rfl⟩

theorem hwW_val : hwW.yieldCurve.valuationDate = 0 := rfl

theorem hwW_timeToDate (q : ℚ) : hwW.timeToDate q = intTrunc (q * 365) := by
  simp [hwW, curveW, HullWhite1F.timeToDate]

theorem hwWtheta0 : ∃ y, hwW.thetaE (0 / 10) = .ok y :=
  thetaE_ok_widened hwW (0 / 10)
    (by rw [hwW_val, hwW_timeToDate, intTrunc_eq_floor _ (by positivity)]; exact Int.floor_nonneg.mpr (by positivity))
    (by rw [hwW_timeToDate, hwW_timeToDate, intTrunc_eq_floor _ (by positivity), intTrunc_eq_floor _ (by positivity)]; norm_num [max_def])
    (by rw [hwW_timeToDate, hwW_timeToDate, intTrunc_eq_floor _ (by positivity), intTrunc_eq_floor _ (by positivity)]; norm_num [max_def])
    (by rw [hwW_timeToDate, hwW_timeToDate, intTrunc_eq_floor _ (by positivity), intTrunc_eq_floor _ (by positivity)]; norm_num [max_def])
    (by rw [hwW_timeToDate, hwW_timeToDate, intTrunc_eq_floor _ (by positivity), intTrunc_eq_floor _ (by positivity)]; norm_num [max_def])

theorem hwWtheta1 : ∃ y, hwW.thetaE (1 / 10) = .ok y :=
  thetaE_ok_widened hwW (1 / 10)
    (by rw [hwW_val, hwW_timeToDate, intTrunc_eq_floor _ (by positivity)]; exact Int.floor_nonneg.mpr (by positivity))
    (by rw [hwW_timeToDate, hwW_timeToDate, intTrunc_eq_floor _ (by positivity), intTrunc_eq_floor _ (by positivity)]; norm_num [max_def])
    (by rw [hwW_timeToDate, hwW_timeToDate, intTrunc_eq_floor _ (by positivity), intTrunc_eq_floor _ (by positivity)]; norm_num [max_def])
    (by rw [hwW_timeToDate, hwW_timeToDate, intTrunc_eq_floor _ (by positivity), intTrunc_eq_floor _ (by positivity)]; norm_num [max_def])
    (by rw [hwW_timeToDate, hwW_timeToDate, intTrunc_eq_floor _ (by positivity), intTrunc_eq_floor _ (by positivity)]; norm_num [max_def])

theorem hwWtheta2 : ∃ y, hwW.thetaE (2 / 10) = .ok y :=
  thetaE_ok_widened hwW (2 / 10)
    (by rw [hwW_val, hwW_timeToDate, intTrunc_eq_floor _ (by positivity)]; exact Int.floor_nonneg.mpr (by positivity))
    (by rw [hwW_timeToDate, hwW_timeToDate, intTrunc_eq_floor _ (by positivity), intTrunc_eq_floor _ (by positivity)]; norm_num [max_def])
    (by rw [hwW_timeToDate, hwW_timeToDate, intTrunc_eq_floor _ (by positivity), intTrunc_eq_floor _ (by positivity)]; norm_num [max_def])
    (by rw [hwW_timeToDate, hwW_timeToDate, intTrunc_eq_floor _ (by positivity), intTrunc_eq_floor _ (by positivity)]; norm_num [max_def])
    (by rw [hwW_timeToDate, hwW_timeToDate, intTrunc_eq_floor _ (by positivity), intTrunc_eq_floor _ (by positivity)]; norm_num [max_def])

theorem hwWtheta3 : ∃ y, hwW.thetaE (3 / 10) = .ok y :=
  thetaE_ok_widened hwW (3 / 10)
    (by rw [hwW_val, hwW_timeToDate, intTrunc_eq_floor _ (by positivity)]; exact Int.floor_nonneg.mpr (by positivity))
    (by rw [hwW_timeToDate, hwW_timeToDate, intTrunc_eq_floor _ (by positivity), intTrunc_eq_floor _ (by positivity)]; norm_num [max_def])
    (by rw [hwW_timeToDate, hwW_timeToDate, intTrunc_eq_floor _ (by positivity), intTrunc_eq_floor _ (by positivity)]; norm_num [max_def])
    (by rw [hwW_timeToDate, hwW_timeToDate, intTrunc_eq_floor _ (by positivity), intTrunc_eq_floor _ (by positivity)]; norm_num [max_def])
    (by rw [hwW_timeToDate, hwW_timeToDate, intTrunc_eq_floor _ (by positivity), intTrunc_eq_floor _ (by positivity)]; norm_num [max_def])

theorem hwWtheta4 : ∃ y, hwW.thetaE (4 / 10) = .ok y :=
  thetaE_ok_widened hwW (4 / 10)
    (by rw [hwW_val, hwW_timeToDate, intTrunc_eq_floor _ (by positivity)]; exact Int.floor_nonneg.mpr (by positivity))
    (by rw [hwW_timeToDate, hwW_timeToDate, intTrunc_eq_floor _ (by positivity), intTrunc_eq_floor _ (by positivity)]; norm_num [max_def])
    (by rw [hwW_timeToDate, hwW_timeToDate, intTrunc_eq_floor _ (by positivity), intTrunc_eq_floor _ (by positivity)]; norm_num [max_def])
    (by rw [hwW_timeToDate, hwW_timeToDate, intTrunc_eq_floor _ (by positivity), intTrunc_eq_floor _ (by positivity)]; norm_num [max_def])
    (by rw [hwW_timeToDate, hwW_timeToDate, intTrunc_eq_floor _ (by positivity), intTrunc_eq_floor _ (by positivity)]; norm_num [max_def])

theorem hwWtheta5 : ∃ y, hwW.thetaE (5 / 10) = .ok y :=
  thetaE_ok_widened hwW (5 / 10)
    (by rw [hwW_val, hwW_timeToDate, intTrunc_eq_floor _ (by positivity)]; exact Int.floor_nonneg.mpr (by positivity))
    (by rw [hwW_timeToDate, hwW_timeToDate, intTrunc_eq_floor _ (by positivity), intTrunc_eq_floor _ (by positivity)]; norm_num [max_def])
    (by rw [hwW_timeToDate, hwW_timeToDate, intTrunc_eq_floor _ (by positivity), intTrunc_eq_floor _ (by positivity)]; norm_num [max_def])
    (by rw [hwW_timeToDate, hwW_timeToDate, intTrunc_eq_floor _ (by positivity), intTrunc_eq_floor _ (by positivity)]; norm_num [max_def])
    (by rw [hwW_timeToDate, hwW_timeToDate, intTrunc_eq_floor _ (by positivity), intTrunc_eq_floor _ (by positivity)]; norm_num [max_def])

theorem hwWtheta6 : ∃ y, hwW.thetaE (6 / 10) = .ok y :=
  thetaE_ok_widened hwW (6 / 10)
    (by rw [hwW_val, hwW_timeToDate, intTrunc_eq_floor _ (by positivity)]; exact Int.floor_nonneg.mpr (by positivity))
    (by rw [hwW_timeToDate, hwW_timeToDate, intTrunc_eq_floor _ (by positivity), intTrunc_eq_floor _ (by positivity)]; norm_num [max_def])
    (by rw [hwW_timeToDate, hwW_timeToDate, intTrunc_eq_floor _ (by positivity), intTrunc_eq_floor _ (by positivity)]; norm_num [max_def])
    (by rw [hwW_timeToDate, hwW_timeToDate, intTrunc_eq_floor _ (by positivity), intTrunc_eq_floor _ (by positivity)]; norm_num [max_def])
    (by rw [hwW_timeToDate, hwW_timeToDate, intTrunc_eq_floor _ (by positivity), intTrunc_eq_floor _ (by positivity)]; norm_num [max_def])

theorem hwWtheta7 : ∃ y, hwW.thetaE (7 / 10) = .ok y :=
  thetaE_ok_widened hwW (7 / 10)
    (by rw [hwW_val, hwW_timeToDate, intTrunc_eq_floor _ (by positivity)]; exact Int.floor_nonneg.mpr (by positivity))
    (by rw [hwW_timeToDate, hwW_timeToDate, intTrunc_eq_floor _ (by positivity), intTrunc_eq_floor _ (by positivity)]; norm_num [max_def])
    (by rw [hwW_timeToDate, hwW_timeToDate, intTrunc_eq_floor _ (by positivity), intTrunc_eq_floor _ (by positivity)]; norm_num [max_def])
    (by rw [hwW_timeToDate, hwW_timeToDate, intTrunc_eq_floor _ (by positivity), intTrunc_eq_floor _ (by positivity)]; norm_num [max_def])
    (by rw [hwW_timeToDate, hwW_timeToDate, intTrunc_eq_floor _ (by positivity), intTrunc_eq_floor _ (by positivity)]; norm_num [max_def])

theorem hwWtheta8 : ∃ y, hwW.thetaE (8 / 10) = .ok y :=
  thetaE_ok_widened hwW (8 / 10)
    (by rw [hwW_val, hwW_timeToDate, intTrunc_eq_floor _ (by positivity)]; exact Int.floor_nonneg.mpr (by positivity))
    (by rw [hwW_timeToDate, hwW_timeToDate, intTrunc_eq_floor _ (by positivity), intTrunc_eq_floor _ (by positivity)]; norm_num [max_def])
    (by rw [hwW_timeToDate, hwW_timeToDate, intTrunc_eq_floor _ (by positivity), intTrunc_eq_floor _ (by positivity)]; norm_num [max_def])
    (by rw [hwW_timeToDate, hwW_timeToDate, intTrunc_eq_floor _ (by positivity), intTrunc_eq_floor _ (by positivity)]; norm_num [max_def])
    (by rw [hwW_timeToDate, hwW_timeToDate, intTrunc_eq_floor _ (by positivity), intTrunc_eq_floor _ (by positivity)]; norm_num [max_def])

theorem hwWtheta9 : ∃ y, hwW.thetaE (9 / 10) = .ok y :=
  thetaE_ok_widened hwW (9 / 10)
    (by rw [hwW_val, hwW_timeToDate, intTrunc_eq_floor _ (by positivity)]; exact Int.floor_nonneg.mpr (by positivity))
    (by rw [hwW_timeToDate, hwW_timeToDate, intTrunc_eq_floor _ (by positivity), intTrunc_eq_floor _ (by positivity)]; norm_num [max_def])
    (by rw [hwW_timeToDate, hwW_timeToDate, intTrunc_eq_floor _ (by positivity), intTrunc_eq_floor _ (by positivity)]; norm_num [max_def])
    (by rw [hwW_timeToDate, hwW_timeToDate, intTrunc_eq_floor _ (by positivity), intTrunc_eq_floor _ (by positivity)]; norm_num [max_def])
    (by rw [hwW_timeToDate, hwW_timeToDate, intTrunc_eq_floor _ (by positivity), intTrunc_eq_floor _ (by positivity)]; norm_num [max_def])

theorem hwWtheta10 : ∃ y, hwW.thetaE (10 / 10) = .ok y :=
  thetaE_ok_widened hwW (10 / 10)
    (by rw [hwW_val, hwW_timeToDate, intTrunc_eq_floor _ (by positivity)]; exact Int.floor_nonneg.mpr (by positivity))
    (by rw [hwW_timeToDate, hwW_timeToDate, intTrunc_eq_floor _ (by positivity), intTrunc_eq_floor _ (by positivity)]; norm_num [max_def])
    (by rw [hwW_timeToDate, hwW_timeToDate, intTrunc_eq_floor _ (by positivity), intTrunc_eq_floor _ (by positivity)]; norm_num [max_def])
    (by rw [hwW_timeToDate, hwW_timeToDate, intTrunc_eq_floor _ (by positivity), intTrunc_eq_floor _ (by positivity)]; norm_num [max_def])
    (by rw [hwW_timeToDate, hwW_timeToDate, intTrunc_eq_floor _ (by positivity), intTrunc_eq_floor _ (by positivity)]; norm_num [max_def])

theorem hwW_theta_all : ∀ k : ℕ, k ≤ 10 →
    ∃ y, hwW.thetaE (0 + (k : ℚ) * ((1 - 0) / 10)) = .ok y := by
  intro k hk
  interval_cases k
  · rw [show ((0 : ℚ) + ((0 : ℕ) : ℚ) * ((1 - 0) / 10)) = 0 / 10 by norm_num]
    exact hwWtheta0
  · rw [show ((0 : ℚ) + ((1 : ℕ) : ℚ) * ((1 - 0) / 10)) = 1 / 10 by norm_num]
    exact hwWtheta1
  · rw [show ((0 : ℚ) + ((2 : ℕ) : ℚ) * ((1 - 0) / 10)) = 2 / 10 by norm_num]
    exact hwWtheta2
  · rw [show ((0 : ℚ) + ((3 : ℕ) : ℚ) * ((1 - 0) / 10)) = 3 / 10 by norm_num]
    exact hwWtheta3
  · rw [show ((0 : ℚ) + ((4 : ℕ) : ℚ) * ((1 - 0) / 10)) = 4 / 10 by norm_num]
    exact hwWtheta4
  · rw [show ((0 : ℚ) + ((5 : ℕ) : ℚ) * ((1 - 0) / 10)) = 5 / 10 by norm_num]
    exact hwWtheta5
  · rw [show ((0 : ℚ) + ((6 : ℕ) : ℚ) * ((1 - 0) / 10)) = 6 / 10 by norm_num]
    exact hwWtheta6
  · rw [show ((0 : ℚ) + ((7 : ℕ) : ℚ) * ((1 - 0) / 10)) = 7 / 10 by norm_num]
    exact hwWtheta7
  · rw [show ((0 : ℚ) + ((8 : ℕ) : ℚ) * ((1 - 0) / 10)) = 8 / 10 by norm_num]
    exact hwWtheta8
  · rw [show ((0 : ℚ) + ((9 : ℕ) : ℚ) * ((1 - 0) / 10)) = 9 / 10 by norm_num]
    exact hwWtheta9
  · rw [show ((0 : ℚ) + ((10 : ℕ) : ℚ) * ((1 - 0) / 10)) = 10 / 10 by norm_num]
    exact hwWtheta10

theorem hwW_thetaIntegral_ok : ∃ d, hwW.thetaIntegralE 0 1 = .ok d := by
  have hθfun : ∀ k : ℕ, k ≤ 10 →
      hwW.thetaE (0 + (k : ℚ) * ((1 - 0) / 10)) =
        .ok (exceptOkD (hwW.thetaE (0 + (k : ℚ) * ((1 - 0) / 10))) 0) := by
    intro k hk
    obtain ⟨y, hy⟩ := hwW_theta_all k hk
    rw [hy]
    rfl
  exact ⟨_, thetaIntegralE_trapezoid hwW 0 1 _ hθfun⟩

theorem hwW_exactSteps_ok (r0 : ℝ) : ∃ rs, hwW.exactSteps 0 r0 [1] [0] = .ok rs := by
  obtain ⟨d, hd⟩ := hwW_thetaIntegral_ok
  simp only [HullWhite1F.exactSteps]
  rw [if_neg (by norm_num)]
  rw [hd, ok_bind]
  exact ⟨_, rfl⟩

theorem hwW_simulate_ok :
    ∃ rates, hwW.simulateShortRatePathE [0, 1] (some [0]) (fun _ => 0) = .ok rates := by
  simp only [HullWhite1F.simulateShortRatePathE]
  rw [if_neg (by norm_num)]
  obtain ⟨r, hr⟩ := initialShortRate_ok hwW 0 le_rfl
  rw [hr, ok_bind]
  show ∃ rates, hwW.simulateExactE [0, 1] r (some [0]) (fun _ => 0) = .ok rates
  simp only [HullWhite1F.simulateExactE, List.headD_cons, List.tail_cons]
  rw [if_neg (by norm_num)]
  obtain ⟨rs, hrs⟩ := hwW_exactSteps_ok r
  rw [hrs, ok_bind]
  exact ⟨_, rfl⟩

theorem simulate_exact_step_formula_w :
    ∃ rates drift,
      hwW.simulateShortRatePathE [0, 1] (some [0]) (fun _ => 0) = .ok rates ∧
      hwW.thetaIntegralE (([0, 1] : List ℚ).getD 0 0) (([0, 1] : List ℚ).getD 1 0) =
        .ok drift ∧
      rates.getD 1 0 = rates.getD 0 0 * Real.exp (-hwW.meanReversion *
          ((([0, 1] : List ℚ).getD 1 0 - ([0, 1] : List ℚ).getD 0 0 : ℚ) : ℝ)) + drift +
        Real.sqrt ((hwW.volatility ^ 2 / (2 * hwW.meanReversion)) *
          (1 - Real.exp (-2 * hwW.meanReversion *
            ((([0, 1] : List ℚ).getD 1 0 - ([0, 1] : List ℚ).getD 0 0 : ℚ) : ℝ)))) *
          ([(0 : ℝ)] : List ℝ).getD 0 0 := by
  obtain ⟨rates, hsim⟩ := hwW_simulate_ok
  obtain ⟨drift, h1, h2, _⟩ := simulate_exact_step_formula hwW [0, 1] [0] (fun _ => 0)
    rates rfl hsim 0 (by norm_num)
  exact ⟨rates, drift, hsim, h1, h2⟩

/-! ### C2: the par-swap bootstrap's closed-form solve -/

/-- The claim's "PV of the known payments": over the payment periods of
the schedule whose end date is strictly before (i.e. not equal to) the
swap maturity, the temporary curve's discount factor at the period end,
times the par rate, times the period's year fraction. -/
noncomputable def pvKnownSpec (c : YieldCurve) (dc : DayCount) (rate : ℝ)
    (mat val : ℤ) (s : List ℤ) : ℝ :=
  (((val :: s).zip s).filter (fun p => p.2 ≠ mat)).foldr
    (fun p acc => exceptOkD (c.discountFactorE p.2) 0 * rate * ((yfQ p.1 p.2 dc : ℚ) : ℝ) + acc) 0

/-- The claim's `tau_last`: the year fraction of the final payment period,
from the second-to-last schedule point (or the valuation date for a
single-period schedule) to the maturity. -/
def tauLastSpec (dc : DayCount) (mat val : ℤ) (s : List ℤ) : ℚ :=
  yfQ ((val :: s.dropLast).getLastD val) mat dc

theorem getLastD_irrel {α : Type} (l : List α) (h : l ≠ []) (d1 d2 : α) :
    l.getLastD d1 = l.getLastD d2 := by
  cases l with
  | nil => exact absurd rfl h
  | cons a rest => simp [List.getLastD]

theorem chainLt_head_lt_last_int (l : List ℤ) (h : chainLt l = true)
    (h2 : 2 ≤ l.length) : l.headD 0 < l.getLastD 0 := by
  induction l with
  | nil => simp at h2
  | cons a rest ih =>
    cases rest with
    | nil => simp at h2
    | cons b rest2 =>
      simp only [chainLt, Bool.and_eq_true, decide_eq_true_eq] at h
      have hbl : b ≤ (b :: rest2).getLastD 0 := by
        rcases rest2 with _ | ⟨c, rest3⟩
        · simp
        · have := ih h.2 (by simp)
          simpa using this.le
      calc (a :: b :: rest2).headD 0 = a := rfl
        _ < b := h.1
        _ ≤ (b :: rest2).getLastD 0 := hbl
        _ = (a :: b :: rest2).getLastD 0 := by simp

theorem pvKnownSpec_cons (c : YieldCurve) (dc : DayCount) (rate : ℝ) (mat val e : ℤ)
    (rest : List ℤ) (hne : e ≠ mat) :
    pvKnownSpec c dc rate mat val (e :: rest) =
      exceptOkD (c.discountFactorE e) 0 * rate * ((yfQ val e dc : ℚ) : ℝ) +
        pvKnownSpec c dc rate mat e rest := by
  simp only [pvKnownSpec, List.zip_cons_cons, List.filter_cons]
  rw [if_pos (by simpa using hne)]
  rfl

theorem legLoop_go (c : YieldCurve) (rate : ℝ) (mat : ℤ) :
    ∀ (s : List ℤ) (prev : ℤ) (pv : ℝ) (tm : ℚ),
      chainLt (prev :: s) = true →
      (∀ e ∈ s, c.valuationDate ≤ e) →
      s ≠ [] →
      s.getLastD prev = mat →
      legLoop c .act365 rate mat prev s pv tm =
        .ok (pv + pvKnownSpec c .act365 rate mat prev s,
          yfQ ((prev :: s.dropLast).getLastD prev) mat .act365) := by
  intro s
  induction s with
  | nil => intro prev pv tm _ _ hne _; exact absurd rfl hne
  | cons e rest ih =>
    intro prev pv tm hchain hval hne hlast
    have hpe : prev < e := by
      simp only [chainLt, Bool.and_eq_true, decide_eq_true_eq] at hchain
      exact hchain.1
    have hchain2 : chainLt (e :: rest) = true := by
      simp only [chainLt, Bool.and_eq_true, decide_eq_true_eq] at hchain
      exact hchain.2
    cases rest with
    | nil =>
      have hem : e = mat := by simpa using hlast
      subst hem
      simp only [legLoop]
      rw [if_neg (not_lt.mpr (le_of_lt hpe))]
      simp [pvKnownSpec, legLoop]
    | cons f rest2 =>
      have hrlast : (f :: rest2).getLastD e = mat := by
        rw [getLastD_irrel (f :: rest2) (by simp) e prev]
        rw [show (e :: f :: rest2).getLastD prev = (f :: rest2).getLastD prev by
          simp [List.getLastD]] at hlast
        exact hlast
      have hemat : e < mat := by
        have h2 := chainLt_head_lt_last_int (e :: f :: rest2) hchain2 (by simp)
        rw [show (e :: f :: rest2).headD 0 = e from rfl] at h2
        rw [show (e :: f :: rest2).getLastD 0 = (f :: rest2).getLastD 0 by
          simp [List.getLastD]] at h2
        rw [getLastD_irrel (f :: rest2) (by simp) 0 e, hrlast] at h2
        exact h2
      rw [legLoop]
      rw [if_neg (not_lt.mpr (le_of_lt hpe))]
      rw [if_neg (ne_of_lt hemat)]
      obtain ⟨dfv, hdfv⟩ := discountFactor_ok c e (hval e (by simp))
      rw [hdfv, ok_bind]
      rw [ih e (pv + dfv * rate * ((yfQ prev e .act365 : ℚ) : ℝ)) tm hchain2
        (fun x hx => hval x (by simp [hx])) (by simp) hrlast]
      have hpv : pv + dfv * rate * ((yfQ prev e .act365 : ℚ) : ℝ) +
          pvKnownSpec c .act365 rate mat e (f :: rest2) =
          pv + pvKnownSpec c .act365 rate mat prev (e :: f :: rest2) := by
        rw [pvKnownSpec_cons c .act365 rate mat prev e (f :: rest2) (ne_of_lt hemat)]
        rw [hdfv]
        simp only [exceptOkD]
        ring
      have hdate : (e :: (f :: rest2).dropLast).getLastD e =
          (prev :: (e :: f :: rest2).dropLast).getLastD prev := by
        rw [show (e :: f :: rest2).dropLast = e :: (f :: rest2).dropLast from rfl]
        rw [show (prev :: e :: (f :: rest2).dropLast).getLastD prev =
          (e :: (f :: rest2).dropLast).getLastD prev by simp [List.getLastD]]
        exact getLastD_irrel _ (by simp) e prev
      rw [hpv, hdate]

theorem mkYieldCurve_val (val : ℤ) (dates : List ℤ) (rates : List ℝ)
    (dc : DayCount) (ip : Interp) (cp : Compounding) (c : YieldCurve)
    (h : mkYieldCurve val dates rates dc ip cp = .ok c) : c.valuationDate = val := by
  simp only [mkYieldCurve] at h
  split_ifs at h
  all_goals simp only [reduceCtorEq, Except.ok.injEq] at h
  subst h
  rfl

theorem buildFromDfs_val (val : ℤ) (dates : List ℤ) (dfs : List ℝ)
    (dc : DayCount) (ip : Interp) (cp : Compounding) (c : YieldCurve)
    (h : buildYieldCurveFromDiscountFactors val dates dfs dc ip cp = .ok c) :
    c.valuationDate = val := by
  rw [buildYieldCurveFromDiscountFactors] at h
  split_ifs at h
  cases hz : zerosOfDfsE val dc cp dates dfs with
  | error er =>
    rw [hz, error_bind] at h
    exact absurd h (by simp)
  | ok zs =>
    rw [hz, ok_bind] at h
    exact mkYieldCurve_val val dates zs dc ip cp c h

theorem penult_lt_last (p : ℤ) (s : List ℤ) (hchain : chainLt (p :: s) = true)
    (hne : s ≠ []) : (p :: s.dropLast).getLastD p < s.getLastD p := by
  induction s generalizing p with
  | nil => exact absurd rfl hne
  | cons e rest ih =>
    cases rest with
    | nil =>
      simp only [chainLt, Bool.and_eq_true, decide_eq_true_eq] at hchain
      exact hchain.1
    | cons f rest2 =>
      have hch2 : chainLt (e :: f :: rest2) = true := by
        simp only [chainLt, Bool.and_eq_true, decide_eq_true_eq] at hchain ⊢
        exact hchain.2
      exact ih e hch2 (by simp)

/-- C2: for a swap after the first (non-empty previous pillar list), under
the builders' default ACT/365 day count, whenever the payment schedule
generates successfully and — after dropping the start point — is non-empty,
strictly increasing from the valuation date, and ends at the swap maturity,
and the temporary curve over the previous pillars builds successfully, the
bootstrap step solves the maturity discount factor in closed form as
`(1 - PV_known) / (1 + rate * tau_last)`, where `PV_known` sums, over the
payment periods ending strictly before maturity, the temporary-curve
discount factor at the period end times the par rate times the period year
fraction, and `tau_last` is the final period's year fraction; it fails
with the bootstrap error exactly when that solved value lies outside
(0, 1]. -/
theorem bootstrap_solves_closed_form (val : ℤ) (ip : Interp) (cp : Compounding)
    (fv : ℤ) (fu : FreqUnit) (prevDates : List ℤ) (prevDfs : List ℝ)
    (mat : ℤ) (rate : ℝ) (c : YieldCurve) (sched s : List ℤ)
    (hprev : prevDates ≠ [])
    (hc : buildYieldCurveFromDiscountFactors val prevDates prevDfs .act365 ip cp = .ok c)
    (hs : generateScheduleNone val mat fv fu = .ok sched)
    (hdrop : (if sched.headD val = val then sched.tail else sched) = s)
    (hne : s ≠ [])
    (hchain : chainLt (val :: s) = true)
    (hlast : s.getLastD val = mat) :
    bootstrapStep val .act365 ip cp fv fu prevDates prevDfs mat rate =
      (if (1 - pvKnownSpec c .act365 rate mat val s) /
            (1 + rate * ((tauLastSpec .act365 mat val s : ℚ) : ℝ)) ≤ 0 ∨
          1 < (1 - pvKnownSpec c .act365 rate mat val s) /
            (1 + rate * ((tauLastSpec .act365 mat val s : ℚ) : ℝ)) then
        Except.error Err.bootstrapFailed
      else Except.ok (mat, (1 - pvKnownSpec c .act365 rate mat val s) /
        (1 + rate * ((tauLastSpec .act365 mat val s : ℚ) : ℝ)))) := by
  have hcval : c.valuationDate = val :=
    buildFromDfs_val val prevDates prevDfs .act365 ip cp c hc
  have hval2 : ∀ e ∈ s, c.valuationDate ≤ e := by
    intro e he
    rw [hcval]
    exact chainLt_head_le val s hchain e (List.mem_cons_of_mem val he)
  have hleg := legLoop_go c rate mat s val 0 0 hchain hval2 hne hlast
  have hpen : (val :: s.dropLast).getLastD val < mat := by
    have h1 := penult_lt_last val s hchain hne
    rwa [hlast] at h1
  have htau : 0 < yfQ ((val :: s.dropLast).getLastD val) mat .act365 :=
    yfQ_act365_pos _ _ hpen
  have hemp : ¬ (s.isEmpty = true) := by
    simp only [List.isEmpty_iff]
    exact hne
  rw [bootstrapStep, hs, ok_bind]
  try dsimp only
  rw [hdrop, if_neg hemp]
  cases prevDates with
  | nil => exact absurd rfl hprev
  | cons p ps =>
    try dsimp only
    rw [hc, ok_bind]
    try dsimp only
    rw [hleg, ok_bind]
    try dsimp only
    rw [if_neg (not_not_intro hlast), ok_bind]
    try dsimp only
    rw [if_pos htau, zero_add]
    simp only [tauLastSpec]

theorem bootstrap_solves_closed_form_w :
    ∃ c : YieldCurve,
      buildYieldCurveFromDiscountFactors 738521 [738621] [(9 : ℝ) / 10]
        .act365 .logLinearDf .cont = .ok c ∧
      bootstrapStep 738521 .act365 .logLinearDf .cont 1 .year [738621] [(9 : ℝ) / 10]
        738886 ((1 : ℝ) / 10) =
        (if (1 - pvKnownSpec c .act365 ((1 : ℝ) / 10) 738886 738521 [738886]) /
              (1 + (1 : ℝ) / 10 * ((tauLastSpec .act365 738886 738521 [738886] : ℚ) : ℝ)) ≤ 0 ∨
            1 < (1 - pvKnownSpec c .act365 ((1 : ℝ) / 10) 738886 738521 [738886]) /
              (1 + (1 : ℝ) / 10 * ((tauLastSpec .act365 738886 738521 [738886] : ℚ) : ℝ)) then
          Except.error Err.bootstrapFailed
        else Except.ok (738886,
          (1 - pvKnownSpec c .act365 ((1 : ℝ) / 10) 738886 738521 [738886]) /
            (1 + (1 : ℝ) / 10 * ((tauLastSpec .act365 738886 738521 [738886] : ℚ) : ℝ)))) := by
  have hchain1 : chainLt ([738621] : List ℤ) = true := by decide
  have hpos : ∀ d ∈ ([738621] : List ℤ), (738521 : ℤ) < d := by decide
  have hdfs : ∀ df ∈ [(9 : ℝ) / 10], 0 < df ∧ df < 1 + 1 / 1000000000000 := by
    intro df h
    simp only [List.mem_cons, List.not_mem_nil, or_false] at h
    subst h
    constructor <;> norm_num
  have hmk := mkYieldCurve_ok 738521 [738621]
    (List.zipWith (fun d df => zeroOfDf .cont df (yfQ 738521 d .act365)) [738621]
      [(9 : ℝ) / 10]) .act365 .logLinearDf .cont (by simp) (by simp)
    hchain1 (fun d hd => le_of_lt (hpos d hd)) (chainLt_map_act365 738521 _ hchain1)
  have hc : buildYieldCurveFromDiscountFactors 738521 [738621] [(9 : ℝ) / 10]
      .act365 .logLinearDf .cont = .ok ⟨738521, [738621],
        List.zipWith (fun d df => zeroOfDf .cont df (yfQ 738521 d .act365)) [738621]
          [(9 : ℝ) / 10], .act365, .logLinearDf, .cont⟩ := by
    rw [buildYieldCurveFromDiscountFactors, if_neg (by simp),
      zerosOfDfsE_eq 738521 .cont _ _ hpos hdfs, ok_bind, hmk]
  refine ⟨_, hc, ?_⟩
  exact bootstrap_solves_closed_form 738521 .logLinearDf .cont 1 .year [738621]
    [(9 : ℝ) / 10] 738886 ((1 : ℝ) / 10) _ [738521, 738886] [738886]
    (by decide) hc (by rfl) (by decide) (by decide) (by decide) (by decide)
